import Mathlib

/-!
Verification of the Monkey interpreter/compiler (TypeScript implementation).

This development shallowly embeds the parts of the implementation that the
checked properties are about:

* the bytecode module `code.ts` (opcodes, operand-width table, `make`,
  `readOperands`, `disassemble`),
* the lexical `SymbolTable` (`symbol_table.ts`),
* the runtime object model (`object.ts`), including the memoised
  `hash()` tables whose reference identity the hash maps rely on,
* the bytecode compiler (`compiler.ts`),
* the pieces of the virtual machine (`vm.ts`) handling the stack, call
  frames, indexing and hash construction,
* the tree-walking evaluator (`evaluate.ts`).

JavaScript `Buffer`s are embedded as `List Nat` of bytes, class instances
as inductive values, and in-place mutation as explicit state passing.
Reference identity of memoised `HashKey` objects is embedded by tagging
each allocated key with a numeric identity (`ref`); a JavaScript `Map`
keyed by objects is an association list looked up by that identity.
-/

namespace InterpreterTs

/-! ## `code.ts`: opcodes and instruction encoding -/

/-- The opcodes of `code.ts`, in the order of the `const enum Opcode`
declaration, so that the numeric value of each opcode is its position. -/
inductive Opcode where
  | OpConstant
  | OpTrue
  | OpFalse
  | OpNull
  | OpPop
  | OpMinus
  | OpBang
  | OpAdd
  | OpSub
  | OpMul
  | OpDiv
  | OpEqual
  | OpNotEqual
  | OpGreaterThan
  | OpJumpNotTruthy
  | OpJump
  | OpGetGlobal
  | OpSetGlobal
  | OpGetLocal
  | OpSetLocal
  | OpGetBuiltin
  | OpArray
  | OpHash
  | OpIndex
  | OpCall
  | OpReturnValue
  | OpReturnNull
  | OpClosure
  | OpGetFree
  | OpCurrentClosure
  deriving DecidableEq, Repr

/-- Numeric value of an opcode (its `const enum` value). -/
def opcodeByte : Opcode → Nat
  | .OpConstant => 0
  | .OpTrue => 1
  | .OpFalse => 2
  | .OpNull => 3
  | .OpPop => 4
  | .OpMinus => 5
  | .OpBang => 6
  | .OpAdd => 7
  | .OpSub => 8
  | .OpMul => 9
  | .OpDiv => 10
  | .OpEqual => 11
  | .OpNotEqual => 12
  | .OpGreaterThan => 13
  | .OpJumpNotTruthy => 14
  | .OpJump => 15
  | .OpGetGlobal => 16
  | .OpSetGlobal => 17
  | .OpGetLocal => 18
  | .OpSetLocal => 19
  | .OpGetBuiltin => 20
  | .OpArray => 21
  | .OpHash => 22
  | .OpIndex => 23
  | .OpCall => 24
  | .OpReturnValue => 25
  | .OpReturnNull => 26
  | .OpClosure => 27
  | .OpGetFree => 28
  | .OpCurrentClosure => 29

/-- Inverse of `opcodeByte`: decode an opcode from a byte (used by
`disassemble`, which indexes the definition table with a raw byte). -/
def byteToOpcode : Nat → Option Opcode
  | 0 => some .OpConstant
  | 1 => some .OpTrue
  | 2 => some .OpFalse
  | 3 => some .OpNull
  | 4 => some .OpPop
  | 5 => some .OpMinus
  | 6 => some .OpBang
  | 7 => some .OpAdd
  | 8 => some .OpSub
  | 9 => some .OpMul
  | 10 => some .OpDiv
  | 11 => some .OpEqual
  | 12 => some .OpNotEqual
  | 13 => some .OpGreaterThan
  | 14 => some .OpJumpNotTruthy
  | 15 => some .OpJump
  | 16 => some .OpGetGlobal
  | 17 => some .OpSetGlobal
  | 18 => some .OpGetLocal
  | 19 => some .OpSetLocal
  | 20 => some .OpGetBuiltin
  | 21 => some .OpArray
  | 22 => some .OpHash
  | 23 => some .OpIndex
  | 24 => some .OpCall
  | 25 => some .OpReturnValue
  | 26 => some .OpReturnNull
  | 27 => some .OpClosure
  | 28 => some .OpGetFree
  | 29 => some .OpCurrentClosure
  | _ => none

/-- `type Definition = {name, operandWidths}` from `code.ts`. -/
structure Definition where
  name : String
  operandWidths : List Nat
  deriving DecidableEq, Repr

/-- The `definitions` table of `code.ts`: every opcode has an entry; the
lookup is `Option`-valued because the TypeScript record type is partial. -/
def lookupDefinition : Opcode → Option Definition
  | .OpConstant => some ⟨"OpConstant", [2]⟩
  | .OpTrue => some ⟨"OpTrue", []⟩
  | .OpFalse => some ⟨"OpFalse", []⟩
  | .OpNull => some ⟨"OpNull", []⟩
  | .OpPop => some ⟨"OpPop", []⟩
  | .OpMinus => some ⟨"OpMinus", []⟩
  | .OpBang => some ⟨"OpBang", []⟩
  | .OpAdd => some ⟨"OpAdd", []⟩
  | .OpSub => some ⟨"OpSub", []⟩
  | .OpMul => some ⟨"OpMul", []⟩
  | .OpDiv => some ⟨"OpDiv", []⟩
  | .OpEqual => some ⟨"OpEqual", []⟩
  | .OpNotEqual => some ⟨"OpNotEqual", []⟩
  | .OpGreaterThan => some ⟨"OpGreaterThan", []⟩
  | .OpJumpNotTruthy => some ⟨"OpJumpNotTruthy", [2]⟩
  | .OpJump => some ⟨"OpJump", [2]⟩
  | .OpGetGlobal => some ⟨"OpGetGlobal", [2]⟩
  | .OpSetGlobal => some ⟨"OpSetGlobal", [2]⟩
  | .OpGetLocal => some ⟨"OpGetLocal", [1]⟩
  | .OpSetLocal => some ⟨"OpSetLocal", [1]⟩
  | .OpGetBuiltin => some ⟨"OpGetBuiltin", [1]⟩
  | .OpArray => some ⟨"OpArray", [2]⟩
  | .OpHash => some ⟨"OpHash", [2]⟩
  | .OpIndex => some ⟨"OpIndex", []⟩
  | .OpCall => some ⟨"OpCall", [1]⟩
  | .OpReturnValue => some ⟨"OpReturnValue", []⟩
  | .OpReturnNull => some ⟨"OpReturnNull", []⟩
  | .OpClosure => some ⟨"OpClosure", [2, 1]⟩
  | .OpGetFree => some ⟨"OpGetFree", [1]⟩
  | .OpCurrentClosure => some ⟨"OpCurrentClosure", []⟩

/-- `lookupDefinition` applied to a raw byte, as `disassemble` does with
`instructions.readUInt8(offset)`. -/
def lookupDefinitionByte (b : Nat) : Option Definition :=
  (byteToOpcode b).bind lookupDefinition

/-- Instructions are byte sequences (`Buffer`). -/
abbrev Instructions := List Nat

/-- `buffer.readUInt8(offset)`. Reads within bounds in all uses proved
about; out-of-range reads are given the value 0. -/
def read8 (ins : Instructions) (offset : Nat) : Nat :=
  ins.getD offset 0

/-- `buffer.readUInt16BE(offset)`: big-endian 16-bit read. -/
def read16 (ins : Instructions) (offset : Nat) : Nat :=
  256 * read8 ins offset + read8 ins (offset + 1)

/-- Big-endian encoding of one operand at the given width, as written by
`buffer.writeUint8` / `buffer.writeUint16BE`. Node's `Buffer` raises a
`RangeError` for a value that does not fit the width; the embedding takes
the residue mod `2^(8w)` and theorems assume fitting operands (where the
residue is the value itself). A width other than 1 or 2 matches no `case`
and writes nothing. -/
def encodeBE : Nat → Nat → List Nat
  | 1, operand => [operand % 256]
  | 2, operand => [operand / 256 % 256, operand % 256]
  | _, _ => []

/-- The operand-writing loop of `make`: the buffer is preallocated
zero-filled at the full instruction length, `operands.forEach` writes one
operand per declared width. Widths with no matching operand stay zero in
the buffer; operands beyond the declared widths find `width` undefined,
match no `case` and write nothing. -/
def encodeOperands : List Nat → List Nat → List Nat
  | [], _ => []
  | w :: ws, [] => List.replicate w 0 ++ encodeOperands ws []
  | w :: ws, operand :: rest => encodeBE w operand ++ encodeOperands ws rest

/-- `make(op, ...operands)` from `code.ts`. -/
def make (op : Opcode) (operands : List Nat) : Instructions :=
  match lookupDefinition op with
  | none => []
  | some d => opcodeByte op :: encodeOperands d.operandWidths operands

/-- The reading loop of `readOperands`, walking the width list and
advancing the offset; a width other than 1 or 2 matches no `case` and
pushes nothing (but still advances the offset). Returns the operands and
the final offset. -/
def readOperandsLoop (widths : List Nat) (ins : Instructions) (offset : Nat) :
    List Nat × Nat :=
  match widths with
  | [] => ([], offset)
  | w :: ws =>
    let first : List Nat :=
      match w with
      | 1 => [read8 ins offset]
      | 2 => [read16 ins offset]
      | _ => []
    let rest := readOperandsLoop ws ins (offset + w)
    (first ++ rest.1, rest.2)

/-- `readOperands(def, instructions, startOffset)` from `code.ts`:
returns `{operands, bytesRead}`. -/
def readOperands (d : Definition) (ins : Instructions) (startOffset : Nat) :
    List Nat × Nat :=
  let r := readOperandsLoop d.operandWidths ins startOffset
  (r.1, r.2 - startOffset)

/-- Zero-pad a numeral to 4 characters (`offset.toString().padStart(4, '0')`). -/
def pad4 (n : Nat) : String :=
  let s := toString n
  String.mk (List.replicate (4 - s.length) '0') ++ s

/-- `formatInstruction(def, operands)` from `code.ts`. -/
def formatInstruction (d : Definition) (operands : List Nat) : String :=
  if operands.length ≠ d.operandWidths.length then
    "ERROR: operand len " ++ toString operands.length ++
      " does not match defined " ++ toString d.operandWidths.length
  else
    match operands with
    | [] => d.name
    | [a] => d.name ++ " " ++ toString a
    | [a, b] => d.name ++ " " ++ toString a ++ " " ++ toString b
    | _ => "ERROR: unhandled operand count for " ++ d.name

/-- The `while (offset < instructions.length)` loop of `disassemble`, on
the loop state `(offset, s)`. Faithful to the source: on an undefined
opcode the error line is pushed and the loop `continue`s **without
advancing `offset`**. Fuel bounds the number of iterations; `none` means
the loop has not finished within the given fuel. -/
def disassembleLoopFuel (ins : Instructions) (offset : Nat) (s : List String) :
    Nat → Option (List String)
  | 0 => none
  | fuel + 1 =>
    if offset < ins.length then
      match lookupDefinitionByte (read8 ins offset) with
      | none =>
        disassembleLoopFuel ins offset
          (s ++ ["ERROR: invalid opcode " ++ toString (read8 ins offset)]) fuel
      | some d =>
        let r := readOperands d ins (offset + 1)
        disassembleLoopFuel ins (offset + 1 + r.2)
          (s ++ [pad4 offset ++ " " ++ formatInstruction d r.1]) fuel
    else
      some s

/-- `disassemble(instructions)` from `code.ts`, with fuel for the loop;
`none` means the loop does not terminate within the fuel. -/
def disassemble (ins : Instructions) (fuel : Nat) : Option String :=
  (disassembleLoopFuel ins 0 [] fuel).map (String.intercalate "\n")

/-! ## Round-trip of `make` and `readOperands` -/

theorem read8_append (l1 l2 : List Nat) (k : Nat) :
    read8 (l1 ++ l2) (l1.length + k) = read8 l2 k := by
  induction l1 with
  | nil => simp [read8]
  | cons x xs ih =>
    have harith : (x :: xs).length + k = (xs.length + k) + 1 := by
      simp; omega
    rw [harith]
    simpa [read8, List.getD] using ih

theorem read8_append_zero (l1 l2 : List Nat) :
    read8 (l1 ++ l2) l1.length = read8 l2 0 := by
  simpa using read8_append l1 l2 0

theorem read8_append_one (l1 l2 : List Nat) :
    read8 (l1 ++ l2) (l1.length + 1) = read8 l2 1 :=
  read8_append l1 l2 1

/-- Reading back the operand bytes written by the `make` loop, generalized
over an already-consumed prefix of the buffer. -/
theorem readOperandsLoop_encode (widths : List Nat) :
    ∀ (operands pre : List Nat),
    (∀ w ∈ widths, w = 1 ∨ w = 2) →
    operands.length = widths.length →
    (∀ p ∈ List.zip operands widths, p.1 < 256 ^ p.2) →
    readOperandsLoop widths (pre ++ encodeOperands widths operands) pre.length
      = (operands, pre.length + widths.sum) := by
  induction widths with
  | nil =>
    intro operands pre _ hlen _
    have : operands = [] := List.length_eq_zero.mp hlen
    subst this
    simp [readOperandsLoop, readOperands, encodeOperands]
  | cons w ws ih =>
    intro operands pre hw hlen hfit
    match operands with
    | [] => simp at hlen
    | o :: os =>
      have hwo : w = 1 ∨ w = 2 := hw w (by simp)
      have hfito : o < 256 ^ w := hfit (o, w) (by simp)
      have hlen' : os.length = ws.length := by simpa using hlen
      have hfit' : ∀ p ∈ List.zip os ws, p.1 < 256 ^ p.2 := by
        intro p hp
        exact hfit p (by simp [hp])
      have hrest := ih os (pre ++ encodeBE w o) (fun x hx => hw x (by simp [hx]))
        hlen' hfit'
      have hencLen : (encodeBE w o).length = w := by
        rcases hwo with h | h <;> subst h <;> simp [encodeBE]
      have hsplit : pre ++ encodeOperands (w :: ws) (o :: os)
          = (pre ++ encodeBE w o) ++ encodeOperands ws os := by
        simp [encodeOperands]
      have hoff : pre.length + w = (pre ++ encodeBE w o).length := by
        simp [hencLen]
      rcases hwo with h | h <;> subst h
      · -- width 1
        have hread : read8 (pre ++ encodeOperands (1 :: ws) (o :: os)) pre.length
            = o := by
          rw [hsplit, List.append_assoc, read8_append_zero]
          have e0 : read8 (encodeBE 1 o ++ encodeOperands ws os) 0
              = o % 256 := rfl
          rw [e0]
          have : o < 256 := by simpa using hfito
          omega
        simp only [readOperandsLoop]
        rw [hread]
        rw [show readOperandsLoop ws (pre ++ encodeOperands (1 :: ws) (o :: os))
              (pre.length + 1)
            = readOperandsLoop ws ((pre ++ encodeBE 1 o) ++ encodeOperands ws os)
              ((pre ++ encodeBE 1 o).length) by rw [hsplit, hoff]]
        rw [hrest]
        simp only [Prod.mk.injEq, List.singleton_append, List.cons.injEq,
          List.sum_cons, List.length_append, hencLen, true_and, and_true]
        omega
      · -- width 2
        have hread : read16 (pre ++ encodeOperands (2 :: ws) (o :: os)) pre.length
            = o := by
          rw [hsplit, List.append_assoc, read16, read8_append_zero,
            read8_append_one]
          have e0 : read8 (encodeBE 2 o ++ encodeOperands ws os) 0
              = o / 256 % 256 := rfl
          have e1 : read8 (encodeBE 2 o ++ encodeOperands ws os) 1
              = o % 256 := rfl
          rw [e0, e1]
          have : o < 65536 := by simpa using hfito
          omega
        simp only [readOperandsLoop]
        rw [hread]
        rw [show readOperandsLoop ws (pre ++ encodeOperands (2 :: ws) (o :: os))
              (pre.length + 2)
            = readOperandsLoop ws ((pre ++ encodeBE 2 o) ++ encodeOperands ws os)
              ((pre ++ encodeBE 2 o).length) by rw [hsplit, hoff]]
        rw [hrest]
        simp only [Prod.mk.injEq, List.singleton_append, List.cons.injEq,
          List.sum_cons, List.length_append, hencLen, true_and, and_true]
        omega

/-- All operand widths in the definitions table are 1 or 2. -/
theorem operandWidths_mem (op : Opcode) (d : Definition)
    (hdef : lookupDefinition op = some d) :
    ∀ w ∈ d.operandWidths, w = 1 ∨ w = 2 := by
  cases op <;> simp only [lookupDefinition, Option.some.injEq] at hdef <;>
    subst hdef <;> intro w hw <;> simp at hw <;> omega

/-- C4. For every opcode `op` with a defined operand-width table and every
operand list matching that table whose entries fit their declared widths,
`readOperands` applied to the definition of `op` and the bytes of
`make(op, operands)`, starting just after the opcode byte, returns exactly
the original operands, with `bytesRead` equal to the sum of the widths. -/
theorem readOperands_make_roundtrip (op : Opcode) (d : Definition)
    (operands : List Nat)
    (hdef : lookupDefinition op = some d)
    (hlen : operands.length = d.operandWidths.length)
    (hfit : ∀ p ∈ List.zip operands d.operandWidths, p.1 < 256 ^ p.2) :
    readOperands d (make op operands) 1 = (operands, d.operandWidths.sum) := by
  have hw := operandWidths_mem op d hdef
  have hmake : make op operands
      = [opcodeByte op] ++ encodeOperands d.operandWidths operands := by
    simp [make, hdef]
  have h := readOperandsLoop_encode d.operandWidths operands [opcodeByte op]
    hw hlen hfit
  simp only [List.length_cons, List.length_nil, Nat.zero_add,
    List.singleton_append] at h
  simp only [readOperands, hmake, List.singleton_append]
  rw [h]
  simp

/-- Witness for `readOperands_make_roundtrip`: the two-operand opcode
`OpClosure 65534 255` round-trips with 3 bytes read. -/
theorem readOperands_make_roundtrip_witness :
    lookupDefinition Opcode.OpClosure = some ⟨"OpClosure", [2, 1]⟩ ∧
    readOperands ⟨"OpClosure", [2, 1]⟩ (make Opcode.OpClosure [65534, 255]) 1
      = ([65534, 255], 3) :=
  ⟨rfl, readOperands_make_roundtrip Opcode.OpClosure ⟨"OpClosure", [2, 1]⟩
    [65534, 255] rfl rfl (by decide)⟩

/-! ## Non-termination of `disassemble` on an invalid opcode byte -/

theorem disassembleLoopFuel_stuck (fuel : Nat) :
    ∀ s, disassembleLoopFuel [30] 0 s fuel = none := by
  induction fuel with
  | zero => intro s; rfl
  | succ n ih =>
    intro s
    have hbyte : read8 [30] 0 = 30 := rfl
    have hdef : lookupDefinitionByte 30 = none := rfl
    simp only [disassembleLoopFuel, hbyte, hdef, List.length_cons,
      List.length_nil, Nat.zero_lt_succ, if_pos]
    exact ih _

/-- C8. The byte 30 is not a defined opcode. Contrary to the claim,
`disassemble` does **not** terminate on the byte sequence `[30]`: the
`continue` in its loop skips the `offset` increment, so the loop pushes
`ERROR: invalid opcode 30` forever. For every fuel bound, the loop fails
to finish. -/
theorem disassemble_invalid_opcode_diverges :
    byteToOpcode 30 = none ∧ ∀ fuel, disassemble [30] fuel = none := by
  refine ⟨rfl, fun fuel => ?_⟩
  simp [disassemble, disassembleLoopFuel_stuck fuel]

/-! ## `symbol_table.ts` -/

/-- `SymbolScope` from `symbol_table.ts`. -/
inductive SymbolScope where
  | GlobalScope
  | LocalScope
  | BuiltinScope
  | FreeScope
  | FunctionScope
  deriving DecidableEq, Repr

/-- `ISymbol` from `symbol_table.ts`. -/
structure ISymbol where
  name : String
  scope : SymbolScope
  index : Nat
  deriving DecidableEq, Repr

/-- One `SymbolTable` object without its `outer` pointer; a table chain is
a list of frames, innermost first, the tail playing the role of `outer`. -/
structure STFrame where
  store : List (String × ISymbol)
  numDefinitions : Nat
  freeSymbols : List ISymbol
  deriving DecidableEq, Repr

/-- A fresh `new SymbolTable()`. -/
def emptySTFrame : STFrame := ⟨[], 0, []⟩

/-- `this.store[name]`: JavaScript object property read. Later writes win,
so the store is an association list with the most recent entry first. -/
def storeLookup (store : List (String × ISymbol)) (name : String) :
    Option ISymbol :=
  (store.find? (fun p => p.1 == name)).map Prod.snd

/-- `this.store[name] = symbol`: property write (overwrites any earlier
binding of the same key, since `storeLookup` takes the first match). -/
def storeInsert (store : List (String × ISymbol)) (name : String)
    (sym : ISymbol) : List (String × ISymbol) :=
  (name, sym) :: store

/-- `SymbolTable.define(name)` on a chain: scope is Local when the table
has an `outer`, Global otherwise; the index is `numDefinitions++`. -/
def stDefine : List STFrame → String → ISymbol × List STFrame
  | [], name => (⟨name, SymbolScope.GlobalScope, 0⟩, [])
  | f :: rest, name =>
    let scope := if rest.isEmpty then SymbolScope.GlobalScope
      else SymbolScope.LocalScope
    let sym : ISymbol := ⟨name, scope, f.numDefinitions⟩
    (sym, { f with store := storeInsert f.store name sym,
                   numDefinitions := f.numDefinitions + 1 } :: rest)

/-- `SymbolTable.defineBuiltin(index, name)`. -/
def stDefineBuiltin : List STFrame → Nat → String → ISymbol × List STFrame
  | [], index, name => (⟨name, SymbolScope.BuiltinScope, index⟩, [])
  | f :: rest, index, name =>
    let sym : ISymbol := ⟨name, SymbolScope.BuiltinScope, index⟩
    (sym, { f with store := storeInsert f.store name sym } :: rest)

/-- `SymbolTable.defineFunctionName(name)`. -/
def stDefineFunctionName : List STFrame → String → ISymbol × List STFrame
  | [], name => (⟨name, SymbolScope.FunctionScope, 0⟩, [])
  | f :: rest, name =>
    let sym : ISymbol := ⟨name, SymbolScope.FunctionScope, 0⟩
    (sym, { f with store := storeInsert f.store name sym } :: rest)

/-- `SymbolTable.defineFree(original)`: push the original (parent-scope)
symbol onto `freeSymbols` and store a Free symbol with index
`freeSymbols.length - 1` under its name. -/
def stDefineFree (f : STFrame) (original : ISymbol) : ISymbol × STFrame :=
  let freeSymbols := f.freeSymbols ++ [original]
  let sym : ISymbol := ⟨original.name, SymbolScope.FreeScope,
    freeSymbols.length - 1⟩
  (sym, { f with freeSymbols := freeSymbols,
                 store := storeInsert f.store original.name sym })

/-- The tail of `SymbolTable.resolve` handling the result `robj` of
`this.outer.resolve(name)` (the outer chain, with any promotions the
parent performed, is `rchain`): an absent result propagates; a
Global/Builtin symbol passes through unchanged; every other parent
result is promoted into this table via `defineFree`. -/
def stResolveOuter (f : STFrame) (robj : Option ISymbol)
    (rchain : List STFrame) : Option ISymbol × List STFrame :=
  match robj with
  | none => (none, f :: rchain)
  | some obj =>
    if obj.scope = SymbolScope.GlobalScope ∨
        obj.scope = SymbolScope.BuiltinScope then
      (some obj, f :: rchain)
    else
      let d := stDefineFree f obj
      (some d.1, d.2 :: rchain)

/-- `SymbolTable.resolve(name)`: a local hit is returned as is; with no
`outer` the resolution fails; otherwise the parent chain is consulted and
its result handled by `stResolveOuter`. -/
def stResolve : List STFrame → String → Option ISymbol × List STFrame
  | [], _ => (none, [])
  | f :: rest, name =>
    match storeLookup f.store name with
    | some localSym => (some localSym, f :: rest)
    | none =>
      match rest with
      | [] => (none, [f])
      | g :: rest' =>
        let r := stResolve (g :: rest') name
        stResolveOuter f r.1 r.2

theorem stResolve_cons_localHit (f : STFrame) (rest : List STFrame)
    (name : String) (s : ISymbol) (h : storeLookup f.store name = some s) :
    stResolve (f :: rest) name = (some s, f :: rest) := by
  cases rest <;> simp [stResolve, h]

theorem stResolve_cons_miss (f g : STFrame) (rest' : List STFrame)
    (name : String) (h : storeLookup f.store name = none) :
    stResolve (f :: g :: rest') name
      = stResolveOuter f (stResolve (g :: rest') name).1
          (stResolve (g :: rest') name).2 := by
  simp [stResolve, h]

/-- Store keys equal the names of the symbols stored under them (every
`store[k] = s` in the source has `s.name = k`). -/
def storeNamesOk (f : STFrame) : Prop :=
  ∀ p ∈ f.store, (p.2 : ISymbol).name = p.1

/-- The free-list invariant of one table: no Global/Builtin symbol is in
`freeSymbols`, and the Free symbol stored for `freeSymbols[i]`'s name has
scope Free and index `i`. -/
def frameFreeOk (f : STFrame) : Prop :=
  (∀ s ∈ f.freeSymbols, s.scope ≠ SymbolScope.GlobalScope ∧
    s.scope ≠ SymbolScope.BuiltinScope) ∧
  (∀ (i : Nat) (s : ISymbol), f.freeSymbols[i]? = some s →
    storeLookup f.store s.name = some ⟨s.name, SymbolScope.FreeScope, i⟩)

/-- Both invariants, for every table in a chain. -/
def chainOk (c : List STFrame) : Prop :=
  ∀ f ∈ c, storeNamesOk f ∧ frameFreeOk f

theorem storeLookup_insert_same (store : List (String × ISymbol))
    (name : String) (sym : ISymbol) :
    storeLookup (storeInsert store name sym) name = some sym := by
  simp [storeLookup, storeInsert, List.find?]

theorem storeLookup_insert_other (store : List (String × ISymbol))
    (name k : String) (sym : ISymbol) (h : k ≠ name) :
    storeLookup (storeInsert store name sym) k = storeLookup store k := by
  simp only [storeLookup, storeInsert, List.find?]
  have hne : (name == k) = false := beq_eq_false_iff_ne.mpr
    (fun he => h he.symm)
  rw [hne]

/-- A symbol found in a store with good keys bears the looked-up name. -/
theorem storeLookup_name_aux (store : List (String × ISymbol))
    (hok : ∀ p ∈ store, (p.2 : ISymbol).name = p.1) (name : String)
    (s : ISymbol) (h : storeLookup store name = some s) : s.name = name := by
  induction store with
  | nil => simp [storeLookup] at h
  | cons q qs ih =>
    simp only [storeLookup, List.find?] at h
    cases hq : (q.1 == name) with
    | true =>
      rw [hq] at h
      simp only [Option.map_some', Option.some.injEq] at h
      have h1 := hok q (by simp)
      have h2 : q.1 = name := by simpa using hq
      rw [← h, h1, h2]
    | false =>
      rw [hq] at h
      exact ih (fun p hp => hok p (by simp [hp])) h

theorem storeLookup_name (f : STFrame) (hok : storeNamesOk f)
    (name : String) (s : ISymbol)
    (h : storeLookup f.store name = some s) : s.name = name :=
  storeLookup_name_aux f.store hok name s h

/-- A resolved symbol bears the looked-up name. -/
theorem stResolve_name (c : List STFrame) (name : String) (s : ISymbol)
    (hok : chainOk c) (h : (stResolve c name).1 = some s) : s.name = name := by
  induction c generalizing s with
  | nil => simp [stResolve] at h
  | cons f rest ih =>
    have hokf := hok f (by simp)
    have hokrest : chainOk rest := fun g hg => hok g (by simp [hg])
    cases hloc : storeLookup f.store name with
    | some localSym =>
      rw [stResolve_cons_localHit f rest name localSym hloc] at h
      simp at h
      subst h
      exact storeLookup_name f hokf.1 name _ hloc
    | none =>
      match rest, hokrest, ih with
      | [], _, _ =>
        rw [show stResolve [f] name = (none, [f]) from by
          simp [stResolve, hloc]] at h
        simp at h
      | g :: rest', hokrest2, ih2 =>
        rw [stResolve_cons_miss f g rest' name hloc] at h
        cases hr : (stResolve (g :: rest') name).1 with
        | none => rw [hr] at h; simp [stResolveOuter] at h
        | some obj =>
          rw [hr] at h
          have hname : obj.name = name := ih2 obj hokrest2 hr
          by_cases hsc : obj.scope = SymbolScope.GlobalScope ∨
              obj.scope = SymbolScope.BuiltinScope
          · rw [stResolveOuter, if_pos hsc] at h
            simp at h
            subst h
            exact hname
          · rw [stResolveOuter, if_neg hsc] at h
            simp [stDefineFree] at h
            subst h
            simpa using hname

/-- `defineFree` preserves both per-frame invariants, given that the
promoted symbol carries the name that missed the local store. -/
theorem stDefineFree_ok (f : STFrame) (obj : ISymbol) (name : String)
    (hnames : storeNamesOk f) (hfree : frameFreeOk f)
    (hmiss : storeLookup f.store name = none)
    (hname : obj.name = name)
    (hscope : ¬(obj.scope = SymbolScope.GlobalScope ∨
      obj.scope = SymbolScope.BuiltinScope)) :
    storeNamesOk (stDefineFree f obj).2 ∧ frameFreeOk (stDefineFree f obj).2 := by
  push_neg at hscope
  refine ⟨?_, ?_, ?_⟩
  · intro p hp
    simp only [stDefineFree, storeInsert, List.mem_cons] at hp
    rcases hp with h | h
    · subst h; rfl
    · exact hnames p h
  · intro s hs
    simp only [stDefineFree, List.mem_append, List.mem_singleton] at hs
    rcases hs with h | h
    · exact hfree.1 s h
    · subst h; exact hscope
  · intro i s hi
    simp only [stDefineFree] at hi ⊢
    by_cases hlt : i < f.freeSymbols.length
    · rw [List.getElem?_append, if_pos hlt] at hi
      have hold := hfree.2 i s hi
      have hne : s.name ≠ obj.name := by
        intro heq
        rw [heq, hname, hmiss] at hold
        exact Option.noConfusion hold
      rw [storeLookup_insert_other f.store obj.name s.name _ hne]
      exact hold
    · have hlen : i < f.freeSymbols.length + 1 := by
        by_contra hge
        rw [List.getElem?_eq_none (by simpa using hge)] at hi
        exact Option.noConfusion hi
      have hieq : i = f.freeSymbols.length := by omega
      subst hieq
      rw [List.getElem?_concat_length] at hi
      have hs : obj = s := by simpa using hi
      subst hs
      rw [storeLookup_insert_same]
      simp

/-- One `resolve` call preserves the chain invariants. -/
theorem stResolve_chainOk (c : List STFrame) (name : String)
    (hok : chainOk c) : chainOk (stResolve c name).2 := by
  induction c with
  | nil => simpa [stResolve] using hok
  | cons f rest ih =>
    have hokf := hok f (by simp)
    have hokrest : chainOk rest := fun x hx => hok x (by simp [hx])
    cases hloc : storeLookup f.store name with
    | some s =>
      rw [stResolve_cons_localHit f rest name s hloc]
      exact hok
    | none =>
      match rest, hokrest, ih with
      | [], _, _ =>
        rw [show stResolve [f] name = (none, [f]) from by
          simp [stResolve, hloc]]
        intro x hx
        simp at hx
        subst hx
        exact hokf
      | g :: rest', hokrest2, ih2 =>
        rw [stResolve_cons_miss f g rest' name hloc]
        have hrec := ih2 hokrest2
        cases hr : (stResolve (g :: rest') name).1 with
        | none =>
          simp only [stResolveOuter]
          intro x hx
          rcases List.mem_cons.mp hx with h | h
          · subst h; exact hokf
          · exact hrec x h
        | some obj =>
          have hname : obj.name = name :=
            stResolve_name (g :: rest') name obj hokrest2 hr
          by_cases hsc : obj.scope = SymbolScope.GlobalScope ∨
              obj.scope = SymbolScope.BuiltinScope
          · rw [stResolveOuter, if_pos hsc]
            intro x hx
            rcases List.mem_cons.mp hx with h | h
            · subst h; exact hokf
            · exact hrec x h
          · rw [stResolveOuter, if_neg hsc]
            intro x hx
            rcases List.mem_cons.mp hx with h | h
            · subst h
              have := stDefineFree_ok f obj name hokf.1 hokf.2 hloc hname hsc
              exact ⟨this.1, this.2⟩
            · exact hrec x h

/-- Any sequence of `resolve` calls, threading the updated chain. -/
def resolveSeq (c : List STFrame) (names : List String) : List STFrame :=
  names.foldl (fun ch n => (stResolve ch n).2) c

theorem resolveSeq_chainOk (names : List String) :
    ∀ c, chainOk c → chainOk (resolveSeq c names) := by
  induction names with
  | nil => intro c h; exact h
  | cons n ns ih =>
    intro c h
    exact ih _ (stResolve_chainOk c n h)

/-- C2. `resolve` on a table with a parent: a locally stored symbol is
returned as is; a parent result with scope Global or Builtin is returned
unchanged; a parent result with scope Local or Free is promoted — the
parent's original symbol is appended to `freeSymbols`, and the returned
(and stored) symbol is Free with index equal to its position. After any
sequence of resolves each `freeSymbols[i]` (never Global/Builtin) has its
stored Free symbol at index `i`. -/
theorem symbolTable_resolve_spec :
    (∀ (f : STFrame) (rest : List STFrame) (name : String) (s : ISymbol),
      rest ≠ [] → storeLookup f.store name = some s →
      stResolve (f :: rest) name = (some s, f :: rest)) ∧
    (∀ (f g : STFrame) (rest' rest2 : List STFrame) (name : String)
      (p : ISymbol),
      storeLookup f.store name = none →
      stResolve (g :: rest') name = (some p, rest2) →
      (p.scope = SymbolScope.GlobalScope ∨
        p.scope = SymbolScope.BuiltinScope) →
      stResolve (f :: g :: rest') name = (some p, f :: rest2)) ∧
    (∀ (f g : STFrame) (rest' rest2 : List STFrame) (name : String)
      (p : ISymbol),
      storeLookup f.store name = none →
      stResolve (g :: rest') name = (some p, rest2) →
      (p.scope = SymbolScope.LocalScope ∨ p.scope = SymbolScope.FreeScope) →
      stResolve (f :: g :: rest') name =
        (some ⟨p.name, SymbolScope.FreeScope, f.freeSymbols.length⟩,
          { f with freeSymbols := f.freeSymbols ++ [p],
                   store := storeInsert f.store p.name
                     ⟨p.name, SymbolScope.FreeScope, f.freeSymbols.length⟩ }
            :: rest2)) ∧
    (∀ (c : List STFrame) (names : List String),
      chainOk c → chainOk (resolveSeq c names)) := by
  refine ⟨?_, ?_, ?_, ?_⟩
  · intro f rest name s _ hloc
    exact stResolve_cons_localHit f rest name s hloc
  · intro f g rest' rest2 name p hmiss hres hsc
    rw [stResolve_cons_miss f g rest' name hmiss, hres]
    simp only [stResolveOuter, if_pos hsc]
  · intro f g rest' rest2 name p hmiss hres hsc
    have hnotgb : ¬(p.scope = SymbolScope.GlobalScope ∨
        p.scope = SymbolScope.BuiltinScope) := by
      rcases hsc with h | h <;> rw [h] <;> simp
    rw [stResolve_cons_miss f g rest' name hmiss, hres]
    simp only [stResolveOuter, if_neg hnotgb, stDefineFree]
    simp
  · intro c names hok
    exact resolveSeq_chainOk names c hok

/-- Witness for `symbolTable_resolve_spec`: resolving `x` in a child of a
table that stores `x` as Local 0 promotes it to Free 0 in the child and
records the original Local symbol in `freeSymbols`. -/
theorem symbolTable_resolve_spec_witness :
    storeLookup (emptySTFrame).store "x" = none ∧
    stResolve [⟨[("x", ⟨"x", SymbolScope.LocalScope, 0⟩)], 1, []⟩] "x"
      = (some ⟨"x", SymbolScope.LocalScope, 0⟩,
         [⟨[("x", ⟨"x", SymbolScope.LocalScope, 0⟩)], 1, []⟩]) ∧
    stResolve [emptySTFrame,
        ⟨[("x", ⟨"x", SymbolScope.LocalScope, 0⟩)], 1, []⟩] "x"
      = (some ⟨"x", SymbolScope.FreeScope, 0⟩,
         [⟨[("x", ⟨"x", SymbolScope.FreeScope, 0⟩)], 0,
            [⟨"x", SymbolScope.LocalScope, 0⟩]⟩,
          ⟨[("x", ⟨"x", SymbolScope.LocalScope, 0⟩)], 1, []⟩]) := by
  refine ⟨rfl, rfl, ?_⟩
  have h := symbolTable_resolve_spec.2.2.1 emptySTFrame
    ⟨[("x", ⟨"x", SymbolScope.LocalScope, 0⟩)], 1, []⟩ []
    [⟨[("x", ⟨"x", SymbolScope.LocalScope, 0⟩)], 1, []⟩] "x"
    ⟨"x", SymbolScope.LocalScope, 0⟩ rfl rfl (Or.inl rfl)
  simpa [emptySTFrame, storeInsert] using h

/-! ## `ast.ts`: syntax tree

One inductive for all nodes (`Node` in the source is the common
interface). Identifier-valued fields (`LetStatement.name`, function
parameters) carry the identifier's string. `WhileExpression`,
`AssignmentStatement`, `BreakStatement` and `FunctionLiteral.name` carry
exactly the fields read by `compiler.ts` / `evaluate.ts`
(`condition`/`loop`, `name`/`value`, none, optional `name`). -/
inductive Node where
  | program (statements : List Node)
  | letStmt (name : String) (value : Node)
  | returnStmt (value : Node)
  | exprStmt (value : Node)
  | blockStmt (statements : List Node)
  | assignStmt (name : String) (value : Node)
  | breakStmt
  | ident (value : String)
  | intLit (value : Int)
  | strLit (value : String)
  | boolLit (value : Bool)
  | preExpr (operator : String) (right : Node)
  | binExpr (left : Node) (operator : String) (right : Node)
  | ifExpr (condition : Node) (consequence : Node) (alternative : Option Node)
  | whileExpr (condition : Node) (loop : Node)
  | funcLit (name : Option String) (parameters : List String) (body : Node)
  | callExpr (func : Node) (args : List Node)
  | arrayLit (elements : List Node)
  | hashLit (pairs : List (Node × Node))
  | indexExpr (left : Node) (index : Node)
  deriving Repr

/-! ## `object.ts`: runtime objects and hash keys -/

/-- `ObjectType` from `object.ts`, extended with the tags of the
`CompiledFunctionObj`/`ClosureObj` classes used by `compiler.ts` and
`vm.ts` (their class bodies are not among the sources; the spec describes
them as a pair of an instruction blob with `numLocals`/`numParameters`
and a function plus captured values). -/
inductive ObjectType where
  | EMPTY_OBJ
  | NULL_OBJ
  | UNDEFINED_OBJ
  | INTEGER_OBJ
  | STRING_OBJ
  | BOOLEAN_OBJ
  | RETURN_VALUE_OBJ
  | BREAK_OBJ
  | ERROR_OBJ
  | FUNCTION_OBJ
  | BUILTIN_OBJ
  | ARRAY_OBJ
  | HASH_OBJ
  | COMPILED_FUNCTION_OBJ
  | CLOSURE_OBJ
  deriving DecidableEq, Repr

/-- The string value of each `ObjectType` enum member (used in error
messages). -/
def objectTypeName : ObjectType → String
  | .EMPTY_OBJ => "EMPTY"
  | .NULL_OBJ => "NULL"
  | .UNDEFINED_OBJ => "UNDEFINED"
  | .INTEGER_OBJ => "INTEGER"
  | .STRING_OBJ => "STRING"
  | .BOOLEAN_OBJ => "BOOLEAN"
  | .RETURN_VALUE_OBJ => "RETURN_VALUE"
  | .BREAK_OBJ => "BREAK"
  | .ERROR_OBJ => "ERROR"
  | .FUNCTION_OBJ => "FUNCTION"
  | .BUILTIN_OBJ => "BUILTIN"
  | .ARRAY_OBJ => "ARRAY"
  | .HASH_OBJ => "HASH"
  | .COMPILED_FUNCTION_OBJ => "COMPILED_FUNCTION"
  | .CLOSURE_OBJ => "CLOSURE"

/-- `HashKey = {type, value}` from `object.ts`, plus a numeric identity
`ref`: the source memoises `HashKey` objects in static tables and the
hash `Map`s compare keys by object identity, which the embedding renders
as equality of `ref` (each allocation gets a fresh `ref`). -/
structure HashKey where
  type : ObjectType
  value : Int
  ref : Nat
  deriving DecidableEq, Repr

/-- `CompiledFunctionObj` payload. -/
structure CompiledFunc where
  instructions : Instructions
  numLocals : Nat
  numParameters : Nat
  deriving DecidableEq, Repr

/-- Runtime objects (`Obj` and its implementing classes). The evaluator's
`FunctionObj` carries its captured environment as an index into the
environment heap; hashes are `Map<HashKey, HashPair>` embedded as
association lists with most recent `set` first. -/
inductive Obj where
  | integer (value : Int)
  | boolean (value : Bool)
  | str (value : String)
  | null
  | empty
  | breakObj
  | returnValue (value : Obj)
  | error (message : String)
  | array (elements : List Obj)
  | hash (pairs : List (HashKey × Obj × Obj))
  | func (parameters : List String) (body : Node) (envId : Nat)
  | builtin (name : String)
  | compiledFunction (fn : CompiledFunc)
  | closure (fn : CompiledFunc) (free : List Obj)
  deriving Repr

/-- `obj.type()`. -/
def Obj.typeTag : Obj → ObjectType
  | .integer _ => .INTEGER_OBJ
  | .boolean _ => .BOOLEAN_OBJ
  | .str _ => .STRING_OBJ
  | .null => .NULL_OBJ
  | .empty => .EMPTY_OBJ
  | .breakObj => .BREAK_OBJ
  | .returnValue _ => .RETURN_VALUE_OBJ
  | .error _ => .ERROR_OBJ
  | .array _ => .ARRAY_OBJ
  | .hash _ => .HASH_OBJ
  | .func _ _ _ => .FUNCTION_OBJ
  | .builtin _ => .BUILTIN_OBJ
  | .compiledFunction _ => .COMPILED_FUNCTION_OBJ
  | .closure _ _ => .CLOSURE_OBJ

/-- `obj.type()` as the string used in error messages. -/
def Obj.typeName (o : Obj) : String := objectTypeName o.typeTag

/-- The `'hash' in obj` check: only Integer, Boolean and String objects
implement `Hashable`. -/
def Obj.isHashable : Obj → Bool
  | .integer _ => true
  | .boolean _ => true
  | .str _ => true
  | _ => false

/-- Wrap to a signed 32-bit integer (`| 0` in JavaScript). -/
def toInt32 (n : Int) : Int := (n + 2 ^ 31) % 2 ^ 32 - 2 ^ 31

/-- The rolling string hash of `StringObj.hash`:
`hash = (hash << 5) - hash + chr; hash |= 0` per character. The `<< 5`
itself is a 32-bit operation in JavaScript, hence the inner `toInt32`.
(Characters are embedded as code points; the source reads UTF-16 code
units, which agree on all characters below `0x10000`.) -/
def str32 (s : String) : Int :=
  s.data.foldl (fun h c => toInt32 (toInt32 (h * 32) - h + c.toNat)) 0

/-- The memoisation state of the static `HASHES` tables of `IntegerObj`
and `StringObj`. `BooleanObj.HASHES` is initialised eagerly with two key
objects, given identities 0 and 1, so the allocation counter starts at 2. -/
structure HashState where
  intTable : List (Int × HashKey)
  strTable : List (String × HashKey)
  counter : Nat
  deriving DecidableEq, Repr

/-- `BooleanObj.HASHES.TRUE`. -/
def boolTrueKey : HashKey := ⟨ObjectType.BOOLEAN_OBJ, 1, 0⟩

/-- `BooleanObj.HASHES.FALSE`. -/
def boolFalseKey : HashKey := ⟨ObjectType.BOOLEAN_OBJ, 0, 1⟩

/-- The tables at class-initialisation time. -/
def initialHashState : HashState := ⟨[], [], 2⟩

def intTableLookup (t : List (Int × HashKey)) (v : Int) : Option HashKey :=
  (t.find? (fun p => p.1 == v)).map Prod.snd

def strTableLookup (t : List (String × HashKey)) (s : String) : Option HashKey :=
  (t.find? (fun p => p.1 == s)).map Prod.snd

/-- `IntegerObj.hash()`: return the memoised key for this payload, or
allocate (and remember) a fresh one. -/
def hashInteger (v : Int) (st : HashState) : HashKey × HashState :=
  match intTableLookup st.intTable v with
  | some k => (k, st)
  | none =>
    let k : HashKey := ⟨ObjectType.INTEGER_OBJ, v, st.counter⟩
    (k, { st with intTable := (v, k) :: st.intTable, counter := st.counter + 1 })

/-- `BooleanObj.hash()`: one of the two static keys. -/
def hashBoolean (b : Bool) (st : HashState) : HashKey × HashState :=
  (if b then boolTrueKey else boolFalseKey, st)

/-- `StringObj.hash()`: memoised by string contents; the key's numeric
value is the rolling 32-bit hash. -/
def hashString (s : String) (st : HashState) : HashKey × HashState :=
  match strTableLookup st.strTable s with
  | some k => (k, st)
  | none =>
    let k : HashKey := ⟨ObjectType.STRING_OBJ, str32 s, st.counter⟩
    (k, { st with strTable := (s, k) :: st.strTable, counter := st.counter + 1 })

/-- `key.hash()` on a `Hashable` object; `none` on every other kind
(callers guard with `'hash' in key`). -/
def hashOfObj : Obj → HashState → Option (HashKey × HashState)
  | .integer v, st => some (hashInteger v st)
  | .boolean b, st => some (hashBoolean b st)
  | .str s, st => some (hashString s st)
  | _, _ => none

/-- `Map.get` on a hash's pair map: keys are compared by object identity. -/
def hashPairsGet (pairs : List (HashKey × Obj × Obj)) (k : HashKey) :
    Option (Obj × Obj) :=
  (pairs.find? (fun p => p.1.ref == k.ref)).map Prod.snd

/-- `Map.set`: the new binding shadows any earlier one with the same key
identity (insertion order, which only affects display, is not tracked). -/
def hashPairsSet (pairs : List (HashKey × Obj × Obj)) (k : HashKey)
    (keyObj valObj : Obj) : List (HashKey × Obj × Obj) :=
  (k, keyObj, valObj) :: pairs

/-! ## Canonicalisation of memoised hash keys (C9) -/

/-- `st'` preserves every memo-table entry of `st` (tables only grow). -/
def HExt (st st' : HashState) : Prop :=
  (∀ v k, intTableLookup st.intTable v = some k →
    intTableLookup st'.intTable v = some k) ∧
  (∀ s k, strTableLookup st.strTable s = some k →
    strTableLookup st'.strTable s = some k)

theorem HExt_refl (st : HashState) : HExt st st :=
  ⟨fun _ _ h => h, fun _ _ h => h⟩

theorem HExt_trans (st1 st2 st3 : HashState) (h12 : HExt st1 st2)
    (h23 : HExt st2 st3) : HExt st1 st3 :=
  ⟨fun v k h => h23.1 v k (h12.1 v k h),
   fun s k h => h23.2 s k (h12.2 s k h)⟩

theorem intTableLookup_cons (t : List (Int × HashKey)) (v' v : Int)
    (k' : HashKey) :
    intTableLookup ((v', k') :: t) v
      = if v' = v then some k' else intTableLookup t v := by
  by_cases h : v' = v
  · simp [intTableLookup, List.find?, h]
  · simp only [intTableLookup, List.find?, beq_eq_false_iff_ne.mpr h, if_neg h]

theorem strTableLookup_cons (t : List (String × HashKey)) (s' s : String)
    (k' : HashKey) :
    strTableLookup ((s', k') :: t) s
      = if s' = s then some k' else strTableLookup t s := by
  by_cases h : s' = s
  · simp [strTableLookup, List.find?, h]
  · simp only [strTableLookup, List.find?, beq_eq_false_iff_ne.mpr h, if_neg h]

theorem hashInteger_extends (v : Int) (st : HashState) :
    HExt st (hashInteger v st).2 := by
  unfold hashInteger
  cases hl : intTableLookup st.intTable v with
  | some k => exact HExt_refl st
  | none =>
    refine ⟨fun v0 k0 h0 => ?_, fun s0 k0 h0 => ?_⟩
    · simp only [intTableLookup_cons]
      have : v ≠ v0 := by
        intro he
        rw [he] at hl
        rw [hl] at h0
        exact Option.noConfusion h0
      rw [if_neg this]
      exact h0
    · exact h0

theorem hashString_extends (s : String) (st : HashState) :
    HExt st (hashString s st).2 := by
  unfold hashString
  cases hl : strTableLookup st.strTable s with
  | some k => exact HExt_refl st
  | none =>
    refine ⟨fun v0 k0 h0 => ?_, fun s0 k0 h0 => ?_⟩
    · exact h0
    · simp only [strTableLookup_cons]
      have : s ≠ s0 := by
        intro he
        rw [he] at hl
        rw [hl] at h0
        exact Option.noConfusion h0
      rw [if_neg this]
      exact h0

theorem hashInteger_mem (v : Int) (st : HashState) :
    intTableLookup (hashInteger v st).2.intTable v
      = some (hashInteger v st).1 := by
  unfold hashInteger
  cases hl : intTableLookup st.intTable v with
  | some k => simpa using hl
  | none => simp [intTableLookup_cons]

theorem hashString_mem (s : String) (st : HashState) :
    strTableLookup (hashString s st).2.strTable s
      = some (hashString s st).1 := by
  unfold hashString
  cases hl : strTableLookup st.strTable s with
  | some k => simpa using hl
  | none => simp [strTableLookup_cons]

/-- C9. The memoised `hash()` methods return a canonical key object per
payload: (a) a call only grows the static tables; (b) once a payload has
been hashed, every later call on an equal payload — after arbitrary
further hashing activity — returns the *identical* key object (same
reference), with the state unchanged; (c) a `Map.get` keyed on object
identity therefore finds the pair stored by `Map.set` under that key.
Together these make hash construction and hash lookup agree. -/
theorem hashKey_canonicalization :
    (∀ (o : Obj) (st : HashState) (k : HashKey) (st' : HashState),
      hashOfObj o st = some (k, st') → HExt st st') ∧
    (∀ (o : Obj) (st : HashState) (k : HashKey) (st' st2 : HashState),
      hashOfObj o st = some (k, st') → HExt st' st2 →
      hashOfObj o st2 = some (k, st2)) ∧
    (∀ (pairs : List (HashKey × Obj × Obj)) (k : HashKey)
      (keyObj valObj : Obj),
      hashPairsGet (hashPairsSet pairs k keyObj valObj) k
        = some (keyObj, valObj)) := by
  refine ⟨?_, ?_, ?_⟩
  · intro o st k st' h
    cases o <;> simp only [hashOfObj] at h <;> try exact Option.noConfusion h
    case integer v =>
      have h2 : st' = (hashInteger v st).2 := by
        have := congrArg Prod.snd (Option.some.inj h)
        simpa using this.symm
      rw [h2]
      exact hashInteger_extends v st
    case boolean b =>
      have h2 : st' = st := by
        have := congrArg Prod.snd (Option.some.inj h)
        simpa [hashBoolean] using this.symm
      rw [h2]
      exact HExt_refl st
    case str s =>
      have h2 : st' = (hashString s st).2 := by
        have := congrArg Prod.snd (Option.some.inj h)
        simpa using this.symm
      rw [h2]
      exact hashString_extends s st
  · intro o st k st' st2 h hext
    cases o <;> simp only [hashOfObj] at h ⊢ <;> try exact Option.noConfusion h
    case integer v =>
      have hk : k = (hashInteger v st).1 := by
        have := congrArg Prod.fst (Option.some.inj h)
        simpa using this.symm
      have hst : st' = (hashInteger v st).2 := by
        have := congrArg Prod.snd (Option.some.inj h)
        simpa using this.symm
      have hmem : intTableLookup st'.intTable v = some k := by
        rw [hst, hk]
        exact hashInteger_mem v st
      have hmem2 : intTableLookup st2.intTable v = some k :=
        hext.1 v k hmem
      simp [hashInteger, hmem2]
    case boolean b =>
      have hk : k = (hashBoolean b st).1 := by
        have := congrArg Prod.fst (Option.some.inj h)
        simpa using this.symm
      simp only [hashBoolean] at hk ⊢
      rw [hk]
    case str s =>
      have hk : k = (hashString s st).1 := by
        have := congrArg Prod.fst (Option.some.inj h)
        simpa using this.symm
      have hst : st' = (hashString s st).2 := by
        have := congrArg Prod.snd (Option.some.inj h)
        simpa using this.symm
      have hmem : strTableLookup st'.strTable s = some k := by
        rw [hst, hk]
        exact hashString_mem s st
      have hmem2 : strTableLookup st2.strTable s = some k :=
        hext.2 s k hmem
      simp [hashString, hmem2]
  · intro pairs k keyObj valObj
    simp [hashPairsGet, hashPairsSet, List.find?]

/-- Witness for `hashKey_canonicalization`: hashing `IntegerObj(5)` twice
from a fresh state yields the identical key object (reference 2) both
times. -/
theorem hashKey_canonicalization_witness :
    hashOfObj (Obj.integer 5) initialHashState
      = some (⟨ObjectType.INTEGER_OBJ, 5, 2⟩,
          ⟨[(5, ⟨ObjectType.INTEGER_OBJ, 5, 2⟩)], [], 3⟩) ∧
    hashOfObj (Obj.integer 5) ⟨[(5, ⟨ObjectType.INTEGER_OBJ, 5, 2⟩)], [], 3⟩
      = some (⟨ObjectType.INTEGER_OBJ, 5, 2⟩,
          ⟨[(5, ⟨ObjectType.INTEGER_OBJ, 5, 2⟩)], [], 3⟩) :=
  ⟨rfl,
   hashKey_canonicalization.2.1 (Obj.integer 5) initialHashState
     ⟨ObjectType.INTEGER_OBJ, 5, 2⟩
     ⟨[(5, ⟨ObjectType.INTEGER_OBJ, 5, 2⟩)], [], 3⟩
     ⟨[(5, ⟨ObjectType.INTEGER_OBJ, 5, 2⟩)], [], 3⟩
     rfl (HExt_refl _)⟩

/-! ## `builtins.ts`: the ordered builtin table -/

/-- Modelled from the spec: the `BUILTIN` table of `builtins.ts` at the
current revision is an ordered array of `{name, builtin}` entries (the
copy among the sources is an earlier object-keyed version, while
`compiler.ts`, `vm.ts` and `evaluate.ts` iterate/index an array with
`name` fields). Its fixed order is `len, puts, first, last, rest, push`. -/
def BUILTIN : List String := ["len", "puts", "first", "last", "rest", "push"]

/-! ## `compiler.ts` -/

/-- `EmittedInstruction`. -/
structure EmittedInstruction where
  opcode : Opcode
  position : Nat
  deriving DecidableEq, Repr

/-- `CompilationScope`. The source initialises `lastInstruction` and
`previousInstruction` with `{} as EmittedInstruction` (no fields), which
compares unequal to every opcode; embedded as `none`. -/
structure CompilationScope where
  instructions : Instructions
  lastInstruction : Option EmittedInstruction
  previousInstruction : Option EmittedInstruction
  deriving DecidableEq, Repr

def emptyScope : CompilationScope := ⟨[], none, none⟩

/-- The compiler's mutable state: constant pool, symbol-table chain
(innermost first) and scope stack. The source keeps `scopes` as an array
indexed by `scopeIndex` (always the last entry); the embedding keeps the
current scope at the head. -/
structure CompilerState where
  constants : List Obj
  symbolTable : List STFrame
  scopes : List CompilationScope
  deriving Repr

def currentScope (st : CompilerState) : CompilationScope :=
  st.scopes.headD emptyScope

def currentInstructions (st : CompilerState) : Instructions :=
  (currentScope st).instructions

def modifyScope (f : CompilationScope → CompilationScope)
    (st : CompilerState) : CompilerState :=
  match st.scopes with
  | [] => st
  | s :: rest => { st with scopes := f s :: rest }

/-- `addInstruction`: append bytes, return the position of the first. -/
def addInstruction (instruction : Instructions) (st : CompilerState) :
    Nat × CompilerState :=
  ((currentInstructions st).length,
   modifyScope (fun s => { s with instructions := s.instructions ++ instruction })
     st)

/-- `setLastInstruction`. -/
def setLastInstruction (op : Opcode) (position : Nat) (st : CompilerState) :
    CompilerState :=
  modifyScope (fun s =>
    { s with previousInstruction := s.lastInstruction,
             lastInstruction := some ⟨op, position⟩ }) st

/-- `emit(op, ...operands)`. -/
def emit (op : Opcode) (operands : List Nat) (st : CompilerState) :
    Nat × CompilerState :=
  let instruction := make op operands
  let r := addInstruction instruction st
  (r.1, setLastInstruction op r.1 r.2)

/-- `isLastOp(op)`. -/
def isLastOp (op : Opcode) (st : CompilerState) : Bool :=
  match (currentScope st).lastInstruction with
  | some e => e.opcode == op
  | none => false

/-- `removePop`: truncate at the last instruction's position and restore
`previousInstruction` (only ever called right after `isLastOp(OpPop)`, so
`lastInstruction` is present). -/
def removePop (st : CompilerState) : CompilerState :=
  match (currentScope st).lastInstruction with
  | none => st
  | some e =>
    modifyScope (fun s =>
      { s with instructions := s.instructions.take e.position,
               lastInstruction := s.previousInstruction }) st

/-- Byte-wise in-place overwrite used by `replaceInstruction`. -/
def listOverwrite (l : List Nat) : Nat → List Nat → List Nat
  | _, [] => l
  | pos, b :: bs => listOverwrite (l.set pos b) (pos + 1) bs

/-- `replaceInstruction(position, newInstruction)`. -/
def replaceInstruction (position : Nat) (newInstruction : Instructions)
    (st : CompilerState) : CompilerState :=
  modifyScope (fun s =>
    { s with instructions :=
        listOverwrite s.instructions position newInstruction }) st

/-- `replacePopWithReturn` (guarded by `isLastOp(OpPop)` at call sites). -/
def replacePopWithReturn (st : CompilerState) : CompilerState :=
  match (currentScope st).lastInstruction with
  | none => st
  | some e =>
    let st := replaceInstruction e.position (make Opcode.OpReturnValue []) st
    modifyScope (fun s =>
      { s with lastInstruction := some ⟨Opcode.OpReturnValue, e.position⟩ }) st

/-- `changeOperand(opPosition, operand)`: re-`make` from the raw opcode
byte found at the position and overwrite in place. -/
def changeOperand (opPosition operand : Nat) (st : CompilerState) :
    CompilerState :=
  let b := read8 (currentInstructions st) opPosition
  let newInstruction :=
    match byteToOpcode b with
    | some op => make op [operand]
    | none => []
  replaceInstruction opPosition newInstruction st

/-- `addConstant(obj)`. -/
def addConstant (obj : Obj) (st : CompilerState) : Nat × CompilerState :=
  (st.constants.length, { st with constants := st.constants ++ [obj] })

/-- `enterScope()`. -/
def enterScope (st : CompilerState) : CompilerState :=
  { st with scopes := emptyScope :: st.scopes,
            symbolTable := emptySTFrame :: st.symbolTable }

/-- `leaveScope()`: return the left scope's instructions. -/
def leaveScope (st : CompilerState) : Instructions × CompilerState :=
  (currentInstructions st,
   { st with scopes := st.scopes.tail, symbolTable := st.symbolTable.tail })

/-- `loadSymbol(s)`. -/
def loadSymbol (s : ISymbol) (st : CompilerState) : CompilerState :=
  match s.scope with
  | SymbolScope.GlobalScope => (emit Opcode.OpGetGlobal [s.index] st).2
  | SymbolScope.LocalScope => (emit Opcode.OpGetLocal [s.index] st).2
  | SymbolScope.BuiltinScope => (emit Opcode.OpGetBuiltin [s.index] st).2
  | SymbolScope.FreeScope => (emit Opcode.OpGetFree [s.index] st).2
  | SymbolScope.FunctionScope => (emit Opcode.OpCurrentClosure [] st).2

mutual

/-- `string()` of each AST node (`ast.ts`), used by the compiler to sort
hash-literal keys. `FunctionLiteral.string` joins its parameters by the
JavaScript array-to-string coercion (comma); `HashLiteral.string` passes
its `forEach` callback `(key, value)` arguments in `Map.forEach`'s
`(value, key)` order and so prints `value: key` pairs. The classes for
`while`/assignment/`break` are not among the sources; their renderings
follow the spec's surface syntax and are never hash keys. -/
def nodeString : Node → String
  | .program statements =>
    String.intercalate " " (nodeStrings statements)
  | .letStmt name value =>
    "let " ++ name ++ " = " ++ nodeString value ++ ";"
  | .returnStmt value => "return " ++ nodeString value ++ ";"
  | .exprStmt value => nodeString value ++ ";"
  | .blockStmt statements =>
    String.intercalate "" (nodeStrings statements)
  | .assignStmt name value => name ++ " = " ++ nodeString value ++ ";"
  | .breakStmt => "break;"
  | .ident value => value
  | .intLit value => toString value
  | .strLit value => value
  | .boolLit value => toString value
  | .preExpr operator right =>
    "(" ++ operator ++ nodeString right ++ ")"
  | .binExpr left operator right =>
    "(" ++ nodeString left ++ " " ++ operator ++ " " ++ nodeString right ++ ")"
  | .ifExpr condition consequence alternative =>
    "if " ++ nodeString condition ++ " " ++ nodeString consequence ++
      (match alternative with
        | some alt => " else " ++ nodeString alt
        | none => "")
  | .whileExpr condition loop =>
    "while " ++ nodeString condition ++ " " ++ nodeString loop
  | .funcLit _ parameters body =>
    "fn (" ++ String.intercalate "," parameters ++ ") " ++ nodeString body
  | .callExpr func args =>
    nodeString func ++ "(" ++
      String.intercalate ", " (nodeStrings args) ++ ")"
  | .arrayLit elements =>
    "[" ++ String.intercalate ", " (nodeStrings elements) ++ "]"
  | .indexExpr left index =>
    "(" ++ nodeString left ++ "[" ++ nodeString index ++ "])"
  | .hashLit pairs =>
    "\x7b" ++ String.intercalate ", " (nodeStringPairs pairs) ++ "\x7d"

def nodeStrings : List Node → List String
  | [] => []
  | n :: ns => nodeString n :: nodeStrings ns

def nodeStringPairs : List (Node × Node) → List String
  | [] => []
  | p :: ps => (nodeString p.2 ++ ": " ++ nodeString p.1) :: nodeStringPairs ps

end

/-- The hash-literal key sort
(`keys.sort((a, b) => a.string() < b.string() ? -1 : 1)`), carried out on
the key/value pairs (the source sorts the key array and fetches each
value from the `Map`, which holds distinct key objects). -/
def insertPairByKeyString (x : Node × Node) :
    List (Node × Node) → List (Node × Node)
  | [] => [x]
  | y :: ys =>
    if nodeString x.1 < nodeString y.1 then x :: y :: ys
    else y :: insertPairByKeyString x ys

def sortPairsByKeyString (l : List (Node × Node)) : List (Node × Node) :=
  l.foldr insertPairByKeyString []

mutual

/-- `Compiler.compile(node)`, with fuel bounding the recursion depth
(`Except.error "FUEL"` is unreachable for any actual run given enough
fuel). Nodes the source has no `instanceof` branch for (`while`,
assignment, `break`) fall through every check and compile to nothing. -/
def compileN : Nat → Node → CompilerState → Except String CompilerState
  | 0, _, _ => Except.error "FUEL"
  | fuel + 1, node, st =>
    match node with
    | .program statements => compileListN fuel statements st
    | .blockStmt statements => compileListN fuel statements st
    | .exprStmt value => do
      let st ← compileN fuel value st
      pure (emit Opcode.OpPop [] st).2
    | .letStmt name value => do
      let d := stDefine st.symbolTable name
      let st := { st with symbolTable := d.2 }
      let st ← compileN fuel value st
      if d.1.scope = SymbolScope.GlobalScope then
        pure (emit Opcode.OpSetGlobal [d.1.index] st).2
      else
        pure (emit Opcode.OpSetLocal [d.1.index] st).2
    | .returnStmt value => do
      let st ← compileN fuel value st
      pure (emit Opcode.OpReturnValue [] st).2
    | .binExpr left operator right =>
      if operator = "<" then do
        let st ← compileN fuel right st
        let st ← compileN fuel left st
        pure (emit Opcode.OpGreaterThan [] st).2
      else do
        let st ← compileN fuel left st
        let st ← compileN fuel right st
        match operator with
        | "+" => pure (emit Opcode.OpAdd [] st).2
        | "-" => pure (emit Opcode.OpSub [] st).2
        | "*" => pure (emit Opcode.OpMul [] st).2
        | "/" => pure (emit Opcode.OpDiv [] st).2
        | ">" => pure (emit Opcode.OpGreaterThan [] st).2
        | "==" => pure (emit Opcode.OpEqual [] st).2
        | "!=" => pure (emit Opcode.OpNotEqual [] st).2
        | _ => Except.error ("unknown operator: " ++ operator)
    | .preExpr operator right => do
      let st ← compileN fuel right st
      match operator with
      | "!" => pure (emit Opcode.OpBang [] st).2
      | "-" => pure (emit Opcode.OpMinus [] st).2
      | _ => Except.error ("unknown operator " ++ operator)
    | .ifExpr condition consequence alternative => do
      let st ← compileN fuel condition st
      let e1 := emit Opcode.OpJumpNotTruthy [9999] st
      let st ← compileN fuel consequence e1.2
      let st := if isLastOp Opcode.OpPop st then removePop st else st
      let e2 := emit Opcode.OpJump [9999] st
      let st := e2.2
      let afterConsequencePosition := (currentInstructions st).length
      let st := changeOperand e1.1 afterConsequencePosition st
      let st ← (match alternative with
        | some alt => do
          let st ← compileN fuel alt st
          pure (if isLastOp Opcode.OpPop st then removePop st else st)
        | none => pure (emit Opcode.OpNull [] st).2)
      let afterAlternativePosition := (currentInstructions st).length
      pure (changeOperand e2.1 afterAlternativePosition st)
    | .indexExpr left index => do
      let st ← compileN fuel left st
      let st ← compileN fuel index st
      pure (emit Opcode.OpIndex [] st).2
    | .callExpr func args => do
      let st ← compileN fuel func st
      let st ← compileListN fuel args st
      pure (emit Opcode.OpCall [args.length] st).2
    | .ident value =>
      match stResolve st.symbolTable value with
      | (none, _) => Except.error ("undefined variable " ++ value)
      | (some s, table) =>
        pure (loadSymbol s { st with symbolTable := table })
    | .intLit value =>
      let a := addConstant (Obj.integer value) st
      pure (emit Opcode.OpConstant [a.1] a.2).2
    | .boolLit value =>
      pure (if value then (emit Opcode.OpTrue [] st).2
        else (emit Opcode.OpFalse [] st).2)
    | .strLit value =>
      let a := addConstant (Obj.str value) st
      pure (emit Opcode.OpConstant [a.1] a.2).2
    | .arrayLit elements => do
      let st ← compileListN fuel elements st
      pure (emit Opcode.OpArray [elements.length] st).2
    | .hashLit pairs => do
      let st ← compilePairsN fuel (sortPairsByKeyString pairs) st
      pure (emit Opcode.OpHash [pairs.length * 2] st).2
    | .funcLit name parameters body => do
      let st := enterScope st
      let st := match name with
        | some n => { st with
            symbolTable := (stDefineFunctionName st.symbolTable n).2 }
        | none => st
      let st := parameters.foldl
        (fun s p => { s with symbolTable := (stDefine s.symbolTable p).2 }) st
      let st ← compileN fuel body st
      let st := if isLastOp Opcode.OpPop st then replacePopWithReturn st else st
      let st := if !(isLastOp Opcode.OpReturnValue st) then
          (emit Opcode.OpReturnNull [] st).2
        else st
      let freeSymbols := (st.symbolTable.headD emptySTFrame).freeSymbols
      let numLocals := (st.symbolTable.headD emptySTFrame).numDefinitions
      let l := leaveScope st
      let st := freeSymbols.foldl (fun s sym => loadSymbol sym s) l.2
      let a := addConstant
        (Obj.compiledFunction ⟨l.1, numLocals, parameters.length⟩) st
      pure (emit Opcode.OpClosure [a.1, freeSymbols.length] a.2).2
    | .assignStmt _ _ => pure st
    | .whileExpr _ _ => pure st
    | .breakStmt => pure st

/-- Compile a statement/element list in order. -/
def compileListN : Nat → List Node → CompilerState →
    Except String CompilerState
  | 0, _, _ => Except.error "FUEL"
  | _ + 1, [], st => pure st
  | fuel + 1, n :: ns, st => do
    let st ← compileN fuel n st
    compileListN fuel ns st

/-- Compile sorted hash pairs, key then value each. -/
def compilePairsN : Nat → List (Node × Node) → CompilerState →
    Except String CompilerState
  | 0, _, _ => Except.error "FUEL"
  | _ + 1, [], st => pure st
  | fuel + 1, p :: ps, st => do
    let st ← compileN fuel p.1 st
    let st ← compileN fuel p.2 st
    compilePairsN fuel ps st

end

/-- `new Compiler()`: fresh state whose main symbol table has the
builtins pre-registered in `BUILTIN` order
(`BUILTIN.forEach((value, i) => defineBuiltin(i, value.name))`). -/
def newCompiler : CompilerState :=
  { constants := [],
    symbolTable :=
      (BUILTIN.enum.foldl
        (fun t p => (stDefineBuiltin t p.1 p.2).2) [emptySTFrame]),
    scopes := [emptyScope] }

/-! ## Closure capture (C1) and builtin indices (C3) -/

/-- C1. Compiling `fn(a){ fn(b){ a + b } }` puts the inner function at
constant-pool index 0 with body exactly
`[OpGetFree 0, OpGetLocal 0, OpAdd, OpReturnValue]` and the outer
function at index 1 with body exactly
`[OpGetLocal 0, OpClosure 0 1, OpReturnValue]`: the single captured free
symbol (`a`, a local of the outer scope) is loaded in the enclosing scope
in `freeSymbols` order immediately before `OpClosure`, whose second
operand is the free-variable count 1 and whose first operand is the inner
function's constant index. -/
theorem closure_capture_compilation :
    (compileN 100
        (Node.program [Node.exprStmt (Node.funcLit none ["a"]
          (Node.blockStmt [Node.exprStmt (Node.funcLit none ["b"]
            (Node.blockStmt [Node.exprStmt
              (Node.binExpr (Node.ident "a") "+" (Node.ident "b"))]))]))])
        newCompiler).map
      (fun st => (st.constants, currentInstructions st))
    = Except.ok
        ([Obj.compiledFunction
            ⟨make Opcode.OpGetFree [0] ++ make Opcode.OpGetLocal [0] ++
              make Opcode.OpAdd [] ++ make Opcode.OpReturnValue [], 1, 1⟩,
          Obj.compiledFunction
            ⟨make Opcode.OpGetLocal [0] ++ make Opcode.OpClosure [0, 1] ++
              make Opcode.OpReturnValue [], 1, 1⟩],
         make Opcode.OpClosure [1, 0] ++ make Opcode.OpPop []) := rfl

/-- C3. The builtins are registered into the compiler's main symbol table
in the fixed order `len=0, puts=1, first=2, last=3, rest=4, push=5`, and
compiling an identifier naming builtin `i` emits `OpGetBuiltin i`. -/
theorem builtin_fixed_indices :
    BUILTIN = ["len", "puts", "first", "last", "rest", "push"] ∧
    (∀ (i : Nat) (name : String), BUILTIN[i]? = some name →
      storeLookup (newCompiler.symbolTable.headD emptySTFrame).store name
        = some ⟨name, SymbolScope.BuiltinScope, i⟩) ∧
    (∀ (i : Nat) (name : String), BUILTIN[i]? = some name →
      (compileN 100 (Node.program [Node.exprStmt (Node.ident name)])
          newCompiler).map currentInstructions
        = Except.ok (make Opcode.OpGetBuiltin [i] ++ make Opcode.OpPop [])) := by
  refine ⟨rfl, ?_, ?_⟩
  · intro i name h
    match i with
    | 0 => simp [BUILTIN] at h; subst h; rfl
    | 1 => simp [BUILTIN] at h; subst h; rfl
    | 2 => simp [BUILTIN] at h; subst h; rfl
    | 3 => simp [BUILTIN] at h; subst h; rfl
    | 4 => simp [BUILTIN] at h; subst h; rfl
    | 5 => simp [BUILTIN] at h; subst h; rfl
    | n + 6 =>
      rw [List.getElem?_eq_none (by simp [BUILTIN])] at h
      exact Option.noConfusion h
  · intro i name h
    match i with
    | 0 => simp [BUILTIN] at h; subst h; rfl
    | 1 => simp [BUILTIN] at h; subst h; rfl
    | 2 => simp [BUILTIN] at h; subst h; rfl
    | 3 => simp [BUILTIN] at h; subst h; rfl
    | 4 => simp [BUILTIN] at h; subst h; rfl
    | 5 => simp [BUILTIN] at h; subst h; rfl
    | n + 6 =>
      rw [List.getElem?_eq_none (by simp [BUILTIN])] at h
      exact Option.noConfusion h

/-- Witness for `builtin_fixed_indices`: `puts` has index 1 and compiles
to `OpGetBuiltin 1`. -/
theorem builtin_fixed_indices_witness :
    BUILTIN[1]? = some "puts" ∧
    (compileN 100 (Node.program [Node.exprStmt (Node.ident "puts")])
        newCompiler).map currentInstructions
      = Except.ok (make Opcode.OpGetBuiltin [1] ++ make Opcode.OpPop []) :=
  ⟨rfl, builtin_fixed_indices.2.2 1 "puts" rfl⟩

/-! ## `vm.ts`: stack, frames, indexing, hash construction -/

def STACK_SIZE : Nat := 2048
def GLOBALS_SIZE : Nat := 65536
def FRAMES_SIZE : Nat := 1024

/-- `Frame` from `frame.ts`: the executing closure (compiled function and
captured values), instruction pointer (starting at `-1`) and base
pointer. -/
structure Frame where
  fn : CompiledFunc
  free : List Obj
  ip : Int
  basePointer : Nat
  deriving Repr

/-- JavaScript array write `a[i] = v`: in-range writes update, writes past
the end extend the array (empty slots read back as `undefined`, embedded
as `Obj.null`; no claim reads an unset slot). -/
def listWriteD {α : Type} (dflt : α) (l : List α) (i : Nat) (v : α) :
    List α :=
  if i < l.length then l.set i v
  else l ++ List.replicate (i - l.length) dflt ++ [v]

/-- The VM state components the verified operations touch. `hst` is the
state of the static `HashKey` memo tables consulted by `hash()` calls. -/
structure VMState where
  constants : List Obj
  stack : List Obj
  sp : Nat
  globals : List Obj
  frames : List Frame
  framesIndex : Nat
  hst : HashState
  deriving Repr

/-- `VM.push`: guarded by the `STACK_SIZE` check. -/
def vmPush (st : VMState) (obj : Obj) : Except String VMState :=
  if st.sp ≥ STACK_SIZE then Except.error "stack overflow"
  else Except.ok { st with stack := listWriteD Obj.null st.stack st.sp obj,
                           sp := st.sp + 1 }

/-- `VM.pop`: reads `stack[sp - 1]` and decrements `sp` (the popped value
stays in the array — `lastPoppedStackElement` reads `stack[sp]`). -/
def vmPop (st : VMState) : Obj × VMState :=
  (st.stack.getD (st.sp - 1) Obj.null, { st with sp := st.sp - 1 })

/-- `VM.pushFrame`: writes `frames[framesIndex]` and increments
`framesIndex` — the source performs **no capacity check** here. -/
def pushFrame (st : VMState) (f : Frame) : VMState :=
  let frames := listWriteD ⟨⟨[], 0, 0⟩, [], -1, 0⟩ st.frames st.framesIndex f
  { st with frames := frames, framesIndex := st.framesIndex + 1 }

/-- `VM.popFrame`. -/
def popFrame (st : VMState) : Frame × VMState :=
  ((st.frames.getD (st.framesIndex - 1) ⟨⟨[], 0, 0⟩, [], -1, 0⟩),
   { st with framesIndex := st.framesIndex - 1 })

/-- `VM.executeArrayIndexExpression`. -/
def executeArrayIndexExpression (st : VMState) (elements : List Obj)
    (idx : Int) : Except String VMState :=
  let max : Int := (elements.length : Int) - 1
  if idx < 0 ∨ idx > max then vmPush st Obj.null
  else vmPush st (elements.getD idx.toNat Obj.null)

/-- `VM.executeHashIndexExpression`: the `'hash' in index` guard and the
`index.hash()` call are combined in `hashOfObj`, which is defined exactly
on the `Hashable` kinds. -/
def executeHashIndexExpression (st : VMState)
    (pairs : List (HashKey × Obj × Obj)) (index : Obj) :
    Except String VMState :=
  match hashOfObj index st.hst with
  | none => Except.error ("unusable as hash key: " ++ index.typeName)
  | some (k, hst) =>
    let st := { st with hst := hst }
    match hashPairsGet pairs k with
    | none => vmPush st Obj.null
    | some pair => vmPush st pair.2

/-- `VM.executeIndexExpression`. -/
def executeIndexExpression (st : VMState) (left index : Obj) :
    Except String VMState :=
  match left, index with
  | Obj.array elements, Obj.integer i =>
    executeArrayIndexExpression st elements i
  | Obj.hash pairs, _ => executeHashIndexExpression st pairs index
  | _, _ =>
    Except.error ("index operator not supported: " ++
      left.typeName ++ "[" ++ index.typeName ++ "]")

/-- The `OpIndex` case of the dispatch loop: pop the index, then the
collection, then execute. -/
def opIndexStep (st : VMState) : Except String VMState :=
  let p1 := vmPop st
  let p2 := vmPop p1.2
  executeIndexExpression p2.2 p2.1 p1.1

/-- The pair loop of `VM.buildHash` over `stack[startIndex..endIndex)`. -/
def buildHashAux (stack : List Obj) (hst : HashState) (i endIndex : Nat)
    (pairs : List (HashKey × Obj × Obj)) :
    Except String (List (HashKey × Obj × Obj) × HashState) :=
  if _hlt : i < endIndex then
    let key := stack.getD i Obj.null
    let value := stack.getD (i + 1) Obj.null
    match hashOfObj key hst with
    | none => Except.error ("unusable as hash key: " ++ key.typeName)
    | some (k, hst) =>
      buildHashAux stack hst (i + 2) endIndex (hashPairsSet pairs k key value)
  else Except.ok (pairs, hst)
  termination_by endIndex - i
  decreasing_by omega

/-- `VM.buildHash(startIndex, endIndex)`: raises on a non-hashable key. -/
def buildHash (stack : List Obj) (hst : HashState)
    (startIndex endIndex : Nat) : Except String (Obj × HashState) :=
  (buildHashAux stack hst startIndex endIndex []).map
    (fun r => (Obj.hash r.1, r.2))

theorem hashOfObj_none_of_not_hashable (o : Obj) (st : HashState)
    (h : o.isHashable = false) : hashOfObj o st = none := by
  cases o <;> simp [Obj.isHashable] at h ⊢ <;> rfl

/-- C5. `OpIndex` pops the index, then the collection; an Array indexed
by an Integer pushes NULL when the index is negative or past the end and
the element otherwise; a Hash with a hashable index pushes the stored
value when the key is present and NULL when absent; a Hash with a
non-hashable index raises `unusable as hash key`; every other
collection/index combination raises `index operator not supported`. -/
theorem opIndex_semantics :
    (∀ (st : VMState) (coll idx : Obj),
      st.stack.getD (st.sp - 1) Obj.null = idx →
      st.stack.getD (st.sp - 2) Obj.null = coll →
      opIndexStep st
        = executeIndexExpression { st with sp := st.sp - 2 } coll idx) ∧
    (∀ (st : VMState) (elements : List Obj) (i : Int),
      i < 0 ∨ (elements.length : Int) ≤ i →
      executeIndexExpression st (Obj.array elements) (Obj.integer i)
        = vmPush st Obj.null) ∧
    (∀ (st : VMState) (elements : List Obj) (i : Int),
      0 ≤ i → i < (elements.length : Int) →
      executeIndexExpression st (Obj.array elements) (Obj.integer i)
        = vmPush st (elements.getD i.toNat Obj.null)) ∧
    (∀ (st : VMState) (pairs : List (HashKey × Obj × Obj)) (index : Obj)
      (k : HashKey) (hst : HashState) (pair : Obj × Obj),
      hashOfObj index st.hst = some (k, hst) →
      hashPairsGet pairs k = some pair →
      executeIndexExpression st (Obj.hash pairs) index
        = vmPush { st with hst := hst } pair.2) ∧
    (∀ (st : VMState) (pairs : List (HashKey × Obj × Obj)) (index : Obj)
      (k : HashKey) (hst : HashState),
      hashOfObj index st.hst = some (k, hst) →
      hashPairsGet pairs k = none →
      executeIndexExpression st (Obj.hash pairs) index
        = vmPush { st with hst := hst } Obj.null) ∧
    (∀ (st : VMState) (pairs : List (HashKey × Obj × Obj)) (index : Obj),
      index.isHashable = false →
      executeIndexExpression st (Obj.hash pairs) index
        = Except.error ("unusable as hash key: " ++ index.typeName)) ∧
    (∀ (st : VMState) (elements : List Obj) (index : Obj),
      index.typeTag ≠ ObjectType.INTEGER_OBJ →
      executeIndexExpression st (Obj.array elements) index
        = Except.error ("index operator not supported: " ++
            (Obj.array elements).typeName ++ "[" ++ index.typeName ++ "]")) ∧
    (∀ (st : VMState) (left index : Obj),
      left.typeTag ≠ ObjectType.ARRAY_OBJ →
      left.typeTag ≠ ObjectType.HASH_OBJ →
      executeIndexExpression st left index
        = Except.error ("index operator not supported: " ++
            left.typeName ++ "[" ++ index.typeName ++ "]")) := by
  refine ⟨?_, ?_, ?_, ?_, ?_, ?_, ?_, ?_⟩
  · intro st coll idx h1 h2
    simp only [opIndexStep, vmPop, h1]
    rw [show st.sp - 1 - 1 = st.sp - 2 from by omega]
    rw [h2]
  · intro st elements i h
    simp only [executeIndexExpression, executeArrayIndexExpression]
    rw [if_pos (by omega)]
  · intro st elements i h0 hlen
    simp only [executeIndexExpression, executeArrayIndexExpression]
    rw [if_neg (by omega)]
  · intro st pairs index k hst pair h1 h2
    cases index <;> simp only [hashOfObj] at h1 <;>
      try exact Option.noConfusion h1
    all_goals
      simp only [executeIndexExpression, executeHashIndexExpression,
        hashOfObj, h1, h2]
  · intro st pairs index k hst h1 h2
    cases index <;> simp only [hashOfObj] at h1 <;>
      try exact Option.noConfusion h1
    all_goals
      simp only [executeIndexExpression, executeHashIndexExpression,
        hashOfObj, h1, h2]
  · intro st pairs index h
    have hnone := hashOfObj_none_of_not_hashable index st.hst h
    cases index <;>
      simp only [executeIndexExpression, executeHashIndexExpression, hnone]
  · intro st elements index h
    cases index <;> first
      | (exact absurd rfl h)
      | rfl
  · intro st left index h1 h2
    cases left <;> first
      | (exact absurd rfl h1)
      | (exact absurd rfl h2)
      | rfl

/-- Witness for `opIndex_semantics`: `[7][0]` pushes `7`, and popping
order feeds the top of stack as the index. -/
theorem opIndex_semantics_witness :
    (0 : Int) ≤ 0 ∧ (0 : Int) < ([Obj.integer 7].length : Int) ∧
    executeIndexExpression ⟨[], [], 0, [], [], 1, initialHashState⟩
        (Obj.array [Obj.integer 7]) (Obj.integer 0)
      = vmPush ⟨[], [], 0, [], [], 1, initialHashState⟩
          ([Obj.integer 7].getD (0 : Int).toNat Obj.null) :=
  ⟨by decide, by decide,
   opIndex_semantics.2.2.1 ⟨[], [], 0, [], [], 1, initialHashState⟩
     [Obj.integer 7] 0 (by decide) (by decide)⟩

/-! ## Stack overflow is checked, frame overflow is not (C6) -/

theorem listWriteD_length {α : Type} (dflt : α) (l : List α) (i : Nat)
    (v : α) :
    (listWriteD dflt l i v).length
      = if i < l.length then l.length else i + 1 := by
  unfold listWriteD
  by_cases h : i < l.length
  · rw [if_pos h, if_pos h]
    simp
  · rw [if_neg h, if_neg h]
    simp
    omega

/-- C6 counterexample. With all `FRAMES_SIZE = 1024` frame slots
occupied, `pushFrame` does **not** raise a runtime error: it returns
normally (its result type carries no error at all, mirroring the absence
of any check in the source), increments `framesIndex` to 1025, and grows
the frames array past its fixed capacity. -/
theorem pushFrame_no_overflow_check :
    (pushFrame
        ⟨[], [], 0, [], List.replicate FRAMES_SIZE ⟨⟨[], 0, 0⟩, [], -1, 0⟩,
          FRAMES_SIZE, initialHashState⟩
        ⟨⟨[], 0, 0⟩, [], -1, 0⟩).framesIndex = FRAMES_SIZE + 1 ∧
    (pushFrame
        ⟨[], [], 0, [], List.replicate FRAMES_SIZE ⟨⟨[], 0, 0⟩, [], -1, 0⟩,
          FRAMES_SIZE, initialHashState⟩
        ⟨⟨[], 0, 0⟩, [], -1, 0⟩).frames.length = FRAMES_SIZE + 1 := by
  constructor
  · rfl
  · simp [pushFrame, listWriteD_length]

/-- C6 (amended). The value-stack push checks `sp >= STACK_SIZE` and
raises `stack overflow`; a successful push keeps the stack within its
capacity. `pushFrame`, by contrast, performs no capacity check: it
always succeeds and increments `framesIndex`, whatever the current
depth. -/
theorem stack_checked_frames_unchecked :
    (∀ (st : VMState) (obj : Obj), st.sp ≥ STACK_SIZE →
      vmPush st obj = Except.error "stack overflow") ∧
    (∀ (st : VMState) (obj : Obj) (st' : VMState),
      st.stack.length ≤ STACK_SIZE → vmPush st obj = Except.ok st' →
      st'.stack.length ≤ STACK_SIZE ∧ st'.sp = st.sp + 1 ∧
        st'.sp ≤ STACK_SIZE) ∧
    (∀ (st : VMState) (f : Frame),
      (pushFrame st f).framesIndex = st.framesIndex + 1) := by
  refine ⟨?_, ?_, ?_⟩
  · intro st obj h
    simp [vmPush, h]
  · intro st obj st' hlen h
    unfold vmPush at h
    by_cases hsp : st.sp ≥ STACK_SIZE
    · rw [if_pos hsp] at h
      exact Except.noConfusion h
    · rw [if_neg hsp] at h
      have hst' := Except.ok.inj h
      subst hst'
      refine ⟨?_, rfl, by show st.sp + 1 ≤ STACK_SIZE; omega⟩
      simp only [listWriteD_length]
      by_cases hi : st.sp < st.stack.length
      · rw [if_pos hi]; exact hlen
      · rw [if_neg hi]; omega
  · intro st f
    rfl

/-- Witness for `stack_checked_frames_unchecked`: a full stack rejects a
push with `stack overflow`; a push on an empty stack lands within
capacity. -/
theorem stack_checked_frames_unchecked_witness :
    vmPush ⟨[], List.replicate STACK_SIZE Obj.null, STACK_SIZE, [], [], 1,
        initialHashState⟩ Obj.null
      = Except.error "stack overflow" ∧
    ([] : List Obj).length ≤ STACK_SIZE ∧
    vmPush ⟨[], [], 0, [], [], 1, initialHashState⟩ (Obj.integer 1)
      = Except.ok ⟨[], [Obj.integer 1], 1, [], [], 1, initialHashState⟩ ∧
    ([Obj.integer 1].length ≤ STACK_SIZE ∧ 1 = 0 + 1 ∧ 1 ≤ STACK_SIZE) :=
  ⟨stack_checked_frames_unchecked.1 _ Obj.null (by decide),
   by decide,
   by simp [vmPush, listWriteD, STACK_SIZE],
   by
     have h2 := stack_checked_frames_unchecked.2.1
       ⟨[], [], 0, [], [], 1, initialHashState⟩ (Obj.integer 1)
       ⟨[], [Obj.integer 1], 1, [], [], 1, initialHashState⟩
       (by decide) (by simp [vmPush, listWriteD, STACK_SIZE])
     simpa using h2⟩

/-! ## `evaluate.ts`: the tree-walking evaluator

`Environment` objects form a mutable graph (closures capture them), so
they live in a heap: `EvalState.envs` is the list of all environments
ever created, an environment id is an index into it, and `outer` points
to the enclosing environment (always an earlier, smaller id by
construction). `hst` is the `HashKey` memo-table state. Recursion is
bounded by fuel; `none` means the fuel ran out. -/

structure EnvFrame where
  store : List (String × Obj)
  outer : Option Nat
  deriving Repr

structure EvalState where
  envs : List EnvFrame
  hst : HashState
  deriving Repr

def objStoreLookup (store : List (String × Obj)) (name : String) :
    Option Obj :=
  (store.find? (fun p => p.1 == name)).map Prod.snd

/-- `Environment.get`: local store first, then the outer chain. The
`outer < envId` guard witnesses that outer environments were created
earlier (ill-formed heaps are never built). -/
def envGet (envs : List EnvFrame) (envId : Nat) (name : String) :
    Option Obj :=
  match envs[envId]? with
  | none => none
  | some f =>
    match objStoreLookup f.store name with
    | some v => some v
    | none =>
      match f.outer with
      | some o => if _h : o < envId then envGet envs o name else none
      | none => none
  termination_by envId

/-- `Environment.set`. -/
def envSet (envs : List EnvFrame) (envId : Nat) (name : String) (v : Obj) :
    List EnvFrame :=
  match envs[envId]? with
  | some f => envs.set envId { f with store := (name, v) :: f.store }
  | none => envs

/-- `Environment.reassign`: update the innermost scope that already binds
the name, walking outward; `none` when no scope binds it. -/
def envReassign (envs : List EnvFrame) (envId : Nat) (name : String)
    (v : Obj) : Option (List EnvFrame) :=
  match envs[envId]? with
  | none => none
  | some f =>
    if (objStoreLookup f.store name).isSome then
      some (envSet envs envId name v)
    else
      match f.outer with
      | some o => if _h : o < envId then envReassign envs o name v else none
      | none => none
  termination_by envId

/-- `Environment.enclosedEnv(outer)`: allocate a fresh empty environment
whose outer pointer is the given one; returns its id. -/
def enclosedEnv (st : EvalState) (parent : Nat) : Nat × EvalState :=
  (st.envs.length, { st with envs := st.envs ++ [⟨[], some parent⟩] })

def isErrorObj : Obj → Bool
  | .error _ => true
  | _ => false

/-- `isTruthy`: everything but the `NULL` and `FALSE` singletons. -/
def isTruthyE : Obj → Bool
  | .null => false
  | .boolean b => b
  | _ => true

/-- `left === right` on the kinds that reach the reference-identity
comparison (same type, neither Integer nor String): Booleans, `NULL` and
`EMPTY` are singletons, so identity is value equality; other kinds are
freshly constructed objects and compare unequal (aliasing the very same
object is not tracked, and no checked property depends on it). -/
def jsRefEq : Obj → Obj → Bool
  | .boolean a, .boolean b => a == b
  | .null, .null => true
  | .empty, .empty => true
  | _, _ => false

/-- `evaluateIntegerInfixExpression` (the `==`/`!=` identity comparisons
coincide with value comparisons thanks to the `INTEGER` pool; `/` is
`Math.trunc` division — division by zero, `Infinity` in JavaScript, is
out of scope). -/
def evaluateIntegerInfixExpression (operator : String) (l r : Int) : Obj :=
  match operator with
  | "==" => Obj.boolean (l == r)
  | "!=" => Obj.boolean (l != r)
  | "+" => Obj.integer (l + r)
  | "-" => Obj.integer (l - r)
  | "*" => Obj.integer (l * r)
  | "/" => Obj.integer (Int.tdiv l r)
  | "<" => Obj.boolean (decide (l < r))
  | ">" => Obj.boolean (decide (r < l))
  | _ => Obj.error ("unknown operator: INTEGER " ++ operator ++ " INTEGER")

/-- `evaluateStringInfixExpression`. -/
def evaluateStringInfixExpression (operator : String) (l r : String) : Obj :=
  match operator with
  | "==" => Obj.boolean (l == r)
  | "!=" => Obj.boolean (l != r)
  | "+" => Obj.str (l ++ r)
  | _ => Obj.error ("unknown operator: STRING " ++ operator ++ " STRING")

/-- `evaluateInfixExpression`. -/
def evaluateInfixExpression (operator : String) (left right : Obj) : Obj :=
  if left.typeTag ≠ right.typeTag then
    Obj.error ("type mismatch: " ++ left.typeName ++ " " ++ operator ++
      " " ++ right.typeName)
  else
    match left, right with
    | .str a, .str b => evaluateStringInfixExpression operator a b
    | .integer a, .integer b => evaluateIntegerInfixExpression operator a b
    | _, _ =>
      if operator = "==" then Obj.boolean (jsRefEq left right)
      else if operator = "!=" then Obj.boolean (!jsRefEq left right)
      else Obj.error ("unknown operator: " ++ left.typeName ++ " " ++
        operator ++ " " ++ right.typeName)

/-- `evaluatePrefixExpression` with `evaluateBangExpression` and
`evaluateMinusPrefixExpression` inlined per operator. -/
def evaluatePrefixExpression (operator : String) (right : Obj) : Obj :=
  match operator with
  | "!" => if isTruthyE right then Obj.boolean false else Obj.boolean true
  | "-" =>
    match right with
    | .integer v => Obj.integer (-v)
    | _ => Obj.error ("unknown operator: -" ++ right.typeName)
  | _ => Obj.error ("unknown operator: " ++ operator ++ right.typeName)

/-- `evaluateArrayIndexExpression` (evaluator). -/
def evalArrayIndex (elements : List Obj) (i : Int) : Obj :=
  if i < 0 ∨ (elements.length : Int) - 1 < i then Obj.null
  else elements.getD i.toNat Obj.null

/-- `evaluateHashIndexExpression` (evaluator): in-band error for a
non-hashable index. -/
def evalHashIndex (st : EvalState) (pairs : List (HashKey × Obj × Obj))
    (index : Obj) : Obj × EvalState :=
  match hashOfObj index st.hst with
  | none => (Obj.error ("unusable as hash key: " ++ index.typeName), st)
  | some (k, hst) =>
    let st := { st with hst := hst }
    match hashPairsGet pairs k with
    | none => (Obj.null, st)
    | some pair => (pair.2, st)

/-- `evaluateIndexExpression` (evaluator). -/
def evalIndex (st : EvalState) (left index : Obj) : Obj × EvalState :=
  match left, index with
  | Obj.array elements, Obj.integer i => (evalArrayIndex elements i, st)
  | Obj.hash pairs, _ => evalHashIndex st pairs index
  | _, _ =>
    (Obj.error ("unknown operator for indexing: " ++ left.typeName), st)

/-- The builtin functions of `builtins.ts` (`puts` writes to the console,
which the embedding does not track, and returns the `EMPTY` sentinel;
`len` of a string counts code points where JavaScript counts UTF-16
units, which agree below `0x10000`). Names outside the table never occur
(`BuiltinObj`s are only created from it). -/
def applyBuiltinFn (name : String) (args : List Obj) : Obj :=
  match name with
  | "len" =>
    if args.length ≠ 1 then
      Obj.error "invalid number of arguments for 'len'"
    else
      match args.getD 0 Obj.null with
      | .str s => Obj.integer s.length
      | .array elements => Obj.integer elements.length
      | a => Obj.error ("argument " ++ a.typeName ++ " to 'len' not supported")
  | "first" =>
    if args.length ≠ 1 then
      Obj.error "invalid number of arguments for 'first'"
    else
      match args.getD 0 Obj.null with
      | .array elements =>
        if 0 < elements.length then elements.getD 0 Obj.null else Obj.null
      | a => Obj.error ("argument " ++ a.typeName ++ " to 'first' not supported")
  | "last" =>
    if args.length ≠ 1 then
      Obj.error "invalid number of arguments for 'last'"
    else
      match args.getD 0 Obj.null with
      | .array elements =>
        if 0 < elements.length then
          elements.getD (elements.length - 1) Obj.null
        else Obj.null
      | a => Obj.error ("argument " ++ a.typeName ++ " to 'last' not supported")
  | "rest" =>
    if args.length ≠ 1 then
      Obj.error "invalid number of arguments for 'rest'"
    else
      match args.getD 0 Obj.null with
      | .array elements =>
        if elements.length < 1 then Obj.null
        else Obj.array elements.tail
      | a => Obj.error ("argument " ++ a.typeName ++ " to 'rest' not supported")
  | "push" =>
    if args.length ≠ 2 then
      Obj.error "invalid number of arguments for 'push'"
    else
      match args.getD 0 Obj.null with
      | .array elements => Obj.array (elements ++ [args.getD 1 Obj.null])
      | a => Obj.error ("argument " ++ a.typeName ++ " to 'push' not supported")
  | "puts" => Obj.empty
  | _ => Obj.null

/-- Parameter binding of `applyFunction`
(`for (const idx in func.parameters) env.set(param, args[idx])`; a
missing argument is JavaScript `undefined`, embedded as `Obj.null` and
never read by any checked property). -/
def bindParams (envs : List EnvFrame) (envId : Nat) :
    List String → List Obj → List EnvFrame
  | [], _ => envs
  | p :: ps, [] => bindParams (envSet envs envId p Obj.null) envId ps []
  | p :: ps, a :: rest => bindParams (envSet envs envId p a) envId ps rest

mutual

/-- `evaluate(node, env)` with fuel. Every recursive evaluation spends
one unit of fuel; `none` means the fuel ran out. -/
def evalN : Nat → Node → Nat → EvalState → Option (Obj × EvalState)
  | 0, _, _, _ => none
  | fuel + 1, node, envId, st =>
    match node with
    | .program statements => evalProgramN fuel statements envId st Obj.null
    | .blockStmt statements => evalBlockN fuel statements envId st Obj.null
    | .returnStmt value =>
      (evalN fuel value envId st).bind fun r =>
        if isErrorObj r.1 then some r
        else some (Obj.returnValue r.1, r.2)
    | .breakStmt => some (Obj.breakObj, st)
    | .letStmt name value =>
      (evalN fuel value envId st).bind fun r =>
        if isErrorObj r.1 then some r
        else
          match r.1 with
          | .null | .empty | .breakObj =>
            some (Obj.error ("cant assign null to variable '" ++ name ++ "'"),
              r.2)
          | v =>
            some (Obj.empty, { r.2 with envs := envSet r.2.envs envId name v })
    | .assignStmt name value =>
      (evalN fuel value envId st).bind fun r =>
        if isErrorObj r.1 then some r
        else
          match r.1 with
          | .null | .empty | .breakObj =>
            some (Obj.error ("cant assign null to variable '" ++ name ++ "'"),
              r.2)
          | v =>
            match envReassign r.2.envs envId name v with
            | none =>
              some (Obj.error ("cant assign to undefined identifier: '" ++
                name ++ "'"), r.2)
            | some envs => some (Obj.empty, { r.2 with envs := envs })
    | .ident value =>
      match envGet st.envs envId value with
      | some v => some (v, st)
      | none =>
        if BUILTIN.contains value then some (Obj.builtin value, st)
        else some (Obj.error ("identifier not found: " ++ value), st)
    | .exprStmt value => evalN fuel value envId st
    | .preExpr operator right =>
      (evalN fuel right envId st).bind fun r =>
        if isErrorObj r.1 then some r
        else some (evaluatePrefixExpression operator r.1, r.2)
    | .binExpr left operator right =>
      (evalN fuel left envId st).bind fun l =>
        if isErrorObj l.1 then some l
        else
          (evalN fuel right envId l.2).bind fun r =>
            if isErrorObj r.1 then some r
            else some (evaluateInfixExpression operator l.1 r.1, r.2)
    | .ifExpr condition consequence alternative =>
      (evalN fuel condition envId st).bind fun c =>
        if isErrorObj c.1 then some c
        else if isTruthyE c.1 then
          let p := enclosedEnv c.2 envId
          evalN fuel consequence p.1 p.2
        else
          match alternative with
          | some alt =>
            let p := enclosedEnv c.2 envId
            evalN fuel alt p.1 p.2
          | none => some (Obj.null, c.2)
    | .whileExpr condition loop =>
      (evalN fuel condition envId st).bind fun c =>
        if isErrorObj c.1 then some c
        else evalWhileLoopN fuel condition loop envId c.1 Obj.null c.2
    | .callExpr funcNode args =>
      (evalN fuel funcNode envId st).bind fun f =>
        if isErrorObj f.1 then some f
        else
          (evalExprsN fuel args envId f.2).bind fun r =>
            match r.1 with
            | Except.error e => some (e, r.2)
            | Except.ok argv => applyFunctionN fuel f.1 argv r.2
    | .indexExpr left index =>
      (evalN fuel left envId st).bind fun l =>
        if isErrorObj l.1 then some l
        else
          (evalN fuel index envId l.2).bind fun i =>
            if isErrorObj i.1 then some i
            else some (evalIndex i.2 l.1 i.1)
    | .intLit v => some (Obj.integer v, st)
    | .strLit v => some (Obj.str v, st)
    | .boolLit v => some (Obj.boolean v, st)
    | .funcLit _ parameters body => some (Obj.func parameters body envId, st)
    | .arrayLit elements =>
      (evalExprsN fuel elements envId st).bind fun r =>
        match r.1 with
        | Except.error e => some (e, r.2)
        | Except.ok elems => some (Obj.array elems, r.2)
    | .hashLit pairs =>
      (evalHashPairsN fuel pairs envId [] st).bind fun r =>
        some (Obj.hash r.1, r.2)
  termination_by structural fuel _ _ _ => fuel

/-- `evaluateProgram`: unwrap `ReturnValue`, stop at errors. -/
def evalProgramN : Nat → List Node → Nat → EvalState → Obj →
    Option (Obj × EvalState)
  | 0, _, _, _, _ => none
  | _ + 1, [], _, st, result => some (result, st)
  | fuel + 1, stmt :: rest, envId, st, _ =>
    (evalN fuel stmt envId st).bind fun r =>
      match r.1 with
      | Obj.returnValue v => some (v, r.2)
      | Obj.error _ => some r
      | _ => evalProgramN fuel rest envId r.2 r.1
  termination_by structural fuel _ _ _ _ => fuel

/-- `evaluateBlockStatement`: `ReturnValue`, `Break` and errors
short-circuit without unwrapping. -/
def evalBlockN : Nat → List Node → Nat → EvalState → Obj →
    Option (Obj × EvalState)
  | 0, _, _, _, _ => none
  | _ + 1, [], _, st, result => some (result, st)
  | fuel + 1, stmt :: rest, envId, st, _ =>
    (evalN fuel stmt envId st).bind fun r =>
      match r.1 with
      | Obj.returnValue _ => some r
      | Obj.breakObj => some r
      | Obj.error _ => some r
      | _ => evalBlockN fuel rest envId r.2 r.1
  termination_by structural fuel _ _ _ _ => fuel

/-- The `while (condition === BOOLEAN.TRUE)` loop of
`evaluateWhileExpression`: only the `TRUE` singleton (embedded
`Obj.boolean true`) enters the body; any other condition value returns
the accumulated result (initially `NULL`) at once. Each iteration runs
the body in a fresh enclosed environment, propagates errors, turns
`break` into `EMPTY`, and re-evaluates the condition in the outer
environment. -/
def evalWhileLoopN : Nat → Node → Node → Nat → Obj → Obj → EvalState →
    Option (Obj × EvalState)
  | 0, _, _, _, c, result, st =>
    match c with
    | Obj.boolean true => none
    | _ => some (result, st)
  | fuel + 1, condition, loop, envId, c, result, st =>
    match c with
    | Obj.boolean true =>
      let p := enclosedEnv st envId
      (evalN fuel loop p.1 p.2).bind fun r =>
        if isErrorObj r.1 then some r
        else
          match r.1 with
          | Obj.breakObj => some (Obj.empty, r.2)
          | _ =>
            (evalN fuel condition envId r.2).bind fun c2 =>
              if isErrorObj c2.1 then some c2
              else evalWhileLoopN fuel condition loop envId c2.1 r.1 c2.2
    | _ => some (result, st)
  termination_by structural fuel _ _ _ _ _ _ => fuel

/-- `applyFunction(func, args)`. -/
def applyFunctionN : Nat → Obj → List Obj → EvalState →
    Option (Obj × EvalState)
  | 0, _, _, _ => none
  | fuel + 1, f, args, st =>
    match f with
    | Obj.func parameters body fenvId =>
      let p := enclosedEnv st fenvId
      let st := { p.2 with envs := bindParams p.2.envs p.1 parameters args }
      (evalN fuel body p.1 st).bind fun r =>
        match r.1 with
        | Obj.returnValue v => some (v, r.2)
        | _ => some r
    | Obj.builtin name => some (applyBuiltinFn name args, st)
    | _ => some (Obj.error ("not a function: " ++ f.typeName), st)
  termination_by structural fuel _ _ _ => fuel

/-- `evaluateExpressions`: evaluate in order, an error short-circuits
(returned in place of the list). -/
def evalExprsN : Nat → List Node → Nat → EvalState →
    Option ((Except Obj (List Obj)) × EvalState)
  | 0, _, _, _ => none
  | _ + 1, [], _, st => some (Except.ok [], st)
  | fuel + 1, e :: es, envId, st =>
    (evalN fuel e envId st).bind fun v =>
      if isErrorObj v.1 then some (Except.error v.1, v.2)
      else
        (evalExprsN fuel es envId v.2).bind fun r =>
          match r.1 with
          | Except.error err => some (Except.error err, r.2)
          | Except.ok vs => some (Except.ok (v.1 :: vs), r.2)
  termination_by structural fuel _ _ _ => fuel

/-- The `node.pairs.forEach(...)` loop of `evaluateHashLiteral`. The
callback's `return key` / `return new ErrorObj(...)` / `return value`
statements only exit the **callback**: `forEach` discards its callback's
return value, so an error merely skips the current pair and iteration
continues (side effects of the evaluations already performed, including
`hash()` memo-table growth, are kept). -/
def evalHashPairsN : Nat → List (Node × Node) → Nat →
    List (HashKey × Obj × Obj) → EvalState →
    Option (List (HashKey × Obj × Obj) × EvalState)
  | 0, _, _, _, _ => none
  | _ + 1, [], _, acc, st => some (acc, st)
  | fuel + 1, p :: rest, envId, acc, st =>
    (evalN fuel p.1 envId st).bind fun k =>
      if isErrorObj k.1 then evalHashPairsN fuel rest envId acc k.2
      else
        match hashOfObj k.1 k.2.hst with
        | none => evalHashPairsN fuel rest envId acc k.2
        | some (hk, hst) =>
          let st := { k.2 with hst := hst }
          (evalN fuel p.2 envId st).bind fun v =>
            if isErrorObj v.1 then evalHashPairsN fuel rest envId acc v.2
            else evalHashPairsN fuel rest envId
              (hashPairsSet acc hk k.1 v.1) v.2
  termination_by structural fuel _ _ _ _ => fuel

end

/-! ## Hash-key errors (C7) and `while` conditions (C10) -/

/-- C7. The engines disagree on a non-hashable hash-literal key. In the
evaluator, `{fn(x){ x }: 1}` does **not** produce an Error: inside
`evaluateHashLiteral` the `return new ErrorObj('unusable as hash key: …')`
sits in a `forEach` callback, whose return value `forEach` discards, so
the offending pair is silently skipped and an empty Hash is returned. The
VM's `buildHash`, fed the same key/value, raises
`unusable as hash key: FUNCTION` as the claim states. -/
theorem hash_literal_key_error_swallowed :
    evalN 3
        (Node.hashLit [(Node.funcLit none ["x"]
          (Node.blockStmt [Node.exprStmt (Node.ident "x")]),
          Node.intLit 1)]) 0
        ⟨[⟨[], none⟩], initialHashState⟩
      = some (Obj.hash [], ⟨[⟨[], none⟩], initialHashState⟩) ∧
    buildHash
        [Obj.func ["x"] (Node.blockStmt [Node.exprStmt (Node.ident "x")]) 0,
          Obj.integer 1] initialHashState 0 2
      = Except.error "unusable as hash key: FUNCTION" := by
  constructor
  · rfl
  · rw [buildHash, buildHashAux]
    rfl

/-- C10. In the evaluator a `while` expression runs its body only when
the condition is exactly the `TRUE` singleton: whenever the condition
evaluates (without error) to any other value — including an Integer such
as `1`, which is truthy for `if` and `!` — no iteration happens and the
whole expression evaluates to `NULL`. -/
theorem while_condition_must_be_TRUE :
    isTruthyE (Obj.integer 1) = true ∧
    (∀ (fuel : Nat) (condition loop : Node) (envId : Nat) (st : EvalState)
      (v : Obj) (st' : EvalState),
      evalN fuel condition envId st = some (v, st') →
      isErrorObj v = false →
      v ≠ Obj.boolean true →
      evalN (fuel + 1) (Node.whileExpr condition loop) envId st
        = some (Obj.null, st')) := by
  refine ⟨rfl, ?_⟩
  intro fuel condition loop envId st v st' heval herr hne
  show (evalN fuel condition envId st).bind (fun c =>
      if isErrorObj c.1 then some c
      else evalWhileLoopN fuel condition loop envId c.1 Obj.null c.2)
    = some (Obj.null, st')
  rw [heval]
  simp only [Option.some_bind, herr, Bool.false_eq_true, if_false]
  cases fuel with
  | zero =>
    cases v with
    | boolean b =>
      cases b with
      | true => exact absurd rfl hne
      | false => rfl
    | _ => rfl
  | succ n =>
    cases v with
    | boolean b =>
      cases b with
      | true => exact absurd rfl hne
      | false => rfl
    | _ => rfl

/-- Witness for `while_condition_must_be_TRUE`: `while (1) { break }`
evaluates to `NULL` without running the body, although `1` is truthy. -/
theorem while_condition_must_be_TRUE_witness :
    evalN 1 (Node.intLit 1) 0 ⟨[⟨[], none⟩], initialHashState⟩
      = some (Obj.integer 1, ⟨[⟨[], none⟩], initialHashState⟩) ∧
    isErrorObj (Obj.integer 1) = false ∧
    evalN 2 (Node.whileExpr (Node.intLit 1) Node.breakStmt) 0
        ⟨[⟨[], none⟩], initialHashState⟩
      = some (Obj.null, ⟨[⟨[], none⟩], initialHashState⟩) :=
  ⟨rfl, rfl,
   while_condition_must_be_TRUE.2 1 (Node.intLit 1) Node.breakStmt 0
     ⟨[⟨[], none⟩], initialHashState⟩ (Obj.integer 1)
     ⟨[⟨[], none⟩], initialHashState⟩ rfl rfl
     (fun h => Obj.noConfusion h)⟩

end InterpreterTs
